import Mathlib

/-!
tinyRF24: a shallow embedding of the nRF24L01 driver.

The driver (`tinyRF24.h`) talks to the radio through three Arduino primitives:
`digitalWrite`, `delayMicroseconds` and `SPI.transfer`.  The embedding threads an
explicit state through every method.  The state holds the two data members of the
class, the state of the attached chip, the levels of the output pins and the log of
every primitive the driver has called, oldest first.

Bytes are natural numbers; a value that the C++ code converts to `uint8_t`
(a function parameter, a return value, an assignment) is reduced modulo 256 at
that place.  A buffer is the list of the bytes found at the pointer, and its first
`len` bytes are `take len` of it.  The template parameters `ce` and `cs` are the
pin numbers of chip-enable and chip-select.
-/

namespace TinyRF24

/-! ## Constants of `nRF24L01.hh` -/

def CONFIG : Nat := 0x00
def EN_AA : Nat := 0x01
def EN_RXADDR : Nat := 0x02
def SETUP_AW : Nat := 0x03
def SETUP_RETR : Nat := 0x04
def RF_CH : Nat := 0x05
def RF_SETUP : Nat := 0x06
def NRF_STATUS : Nat := 0x07
def RX_ADDR_P0 : Nat := 0x0A
def RX_ADDR_P1 : Nat := 0x0B
def TX_ADDR : Nat := 0x10
def RX_PW_P0 : Nat := 0x11
def RX_PW_P1 : Nat := 0x12
def FIFO_STATUS : Nat := 0x17

def ARD : Nat := 4
def ARC : Nat := 0
def EN_CRC : Nat := 3
def PWR_UP : Nat := 1
def PRIM_RX : Nat := 0
def RX_DR : Nat := 6
def TX_DS : Nat := 5
def MAX_RT : Nat := 4
def RX_P_NO : Nat := 1
def RX_EMPTY : Nat := 0

def R_REGISTER : Nat := 0x00
def W_REGISTER : Nat := 0x20
def REGISTER_MASK : Nat := 0x1F
def R_RX_PAYLOAD : Nat := 0x61
def W_TX_PAYLOAD : Nat := 0xA0
def FLUSH_TX : Nat := 0xE1
def FLUSH_RX : Nat := 0xE2
def NOP : Nat := 0xFF

/-! ## Arduino macros used by the driver -/

/-- Arduino `min(a,b)`, the macro `((a)<(b)?(a):(b))`. -/
def amin (a b : Nat) : Nat := if a < b then a else b

/-- Arduino `max(a,b)`, the macro `((a)>(b)?(a):(b))`. -/
def amax (a b : Nat) : Nat := if a > b then a else b

/-- Arduino `bit(b)`, the macro `(1UL << (b))`; `unsigned long` has 32 bits, and a
shift by 32 or more (undefined in C) is taken to shift every bit out. -/
def bit (b : Nat) : Nat := (1 <<< b) % 2 ^ 32

/-- Arduino `bitRead(value, bit)`, the macro `(((value) >> (bit)) & 0x01)`. -/
def bitRead (value b : Nat) : Nat := (value >>> b) &&& 0x01

/-- The complement `~x` of an `unsigned long`. -/
def compl32 (x : Nat) : Nat := (2 ^ 32 - 1) - x % 2 ^ 32

/-! ## The environment -/

/-- One call of an Arduino primitive, as the driver issues it. -/
inductive Event where
  | spiBegin
  | pinMode (pin : Nat)
  | digitalWrite (pin : Nat) (level : Bool)
  | delayMicroseconds (us : Nat)
  | transfer (sent recv : Nat)
  deriving DecidableEq

/-- What is attached to the pins: it sees every pin change, every wait and every
byte clocked out on the bus, and answers each byte with a byte. -/
structure Device (σ : Type) where
  pin : σ → Nat → Bool → σ
  wait : σ → Nat → σ
  xfer : σ → Nat → σ × Nat

/-- The driver object together with its environment. `payload_size` and
`addr_width` are the data members of `RF24`; `uninit` is the indeterminate content
of the uninitialised local `val` of `read_register`. -/
structure State (σ : Type) where
  payload_size : Nat
  addr_width : Nat
  chip : σ
  pins : Nat → Bool
  log : List Event
  uninit : Nat

variable {σ : Type}

/-- Primitive `digitalWrite(pin, level)`. -/
def digitalWrite (D : Device σ) (pin : Nat) (level : Bool) (st : State σ) : State σ :=
  { st with
    chip := D.pin st.chip pin level
    pins := fun p => if p = pin then level else st.pins p
    log := st.log ++ [Event.digitalWrite pin level] }

/-- Primitive `delayMicroseconds(us)`. -/
def delayMicroseconds (D : Device σ) (us : Nat) (st : State σ) : State σ :=
  { st with
    chip := D.wait st.chip us
    log := st.log ++ [Event.delayMicroseconds us] }

/-- Primitive `SPI.transfer(b)`: clocks one byte out and returns the byte clocked in. -/
def SPI_transfer (D : Device σ) (b : Nat) (st : State σ) : Nat × State σ :=
  let r := (D.xfer st.chip b).2 % 256
  (r, { st with chip := (D.xfer st.chip b).1, log := st.log ++ [Event.transfer b r] })

/-- Primitive `SPI.transfer(buf, len)`: exchanges the bytes of the buffer one after the other,
each replaced by the byte received for it. -/
def SPI_transfer_buf (D : Device σ) : List Nat → State σ → List Nat × State σ
  | [], st => ([], st)
  | b :: bs, st =>
    let r := SPI_transfer D b st
    let rs := SPI_transfer_buf D bs r.2
    (r.1 :: rs.1, rs.2)

/-! ## Private methods of `RF24` -/

/-- Method `uint8_t spi(uint8_t cmd, void *buf, uint8_t len)`: one bus transaction. The
first `len` bytes of the buffer are overwritten by the response; the result is the
status byte, the new buffer and the new state. -/
def spi_buf (D : Device σ) (cs : Nat) (cmd : Nat) (buf : List Nat) (len : Nat)
    (st : State σ) : Nat × List Nat × State σ :=
  let st1 := digitalWrite D cs false st
  let r := SPI_transfer D (cmd % 256) st1
  let rs := SPI_transfer_buf D (buf.take (len % 256)) r.2
  let st4 := digitalWrite D cs true rs.2
  (r.1, rs.1 ++ buf.drop (len % 256), st4)

/-- Method `uint8_t spi(uint8_t cmd, const void *buf = 0, uint8_t len = 0)`: copies the
first `len` bytes of the buffer to a temporary and runs the transaction on the
copy. -/
def spi (D : Device σ) (cs : Nat) (cmd : Nat) (buf : List Nat) (len : Nat)
    (st : State σ) : Nat × State σ :=
  let tmp := buf.take (len % 256)
  let r := spi_buf D cs cmd tmp len st
  (r.1, r.2.2)

/-- Method `uint8_t status()`. -/
def status (D : Device σ) (cs : Nat) (st : State σ) : Nat × State σ :=
  spi D cs NOP [] 0 st

/-- Method `uint8_t read_register(uint8_t addr)`. -/
def read_register (D : Device σ) (cs : Nat) (addr : Nat) (st : State σ) : Nat × State σ :=
  let r := spi_buf D cs (R_REGISTER ||| (addr % 256)) [st.uninit] 1 st
  (r.2.1.headD 0, r.2.2)

/-- Method `uint8_t write_register(uint8_t addr, uint8_t val)`. -/
def write_register (D : Device σ) (cs : Nat) (addr val : Nat) (st : State σ) :
    Nat × State σ :=
  let r := spi_buf D cs (W_REGISTER ||| (addr % 256)) [val % 256] 1 st
  (r.1, r.2.2)

/-! ## Public methods of `RF24` -/

/-- Method `void setPayloadSize(uint8_t size)`. -/
def setPayloadSize (size : Nat) (st : State σ) : State σ :=
  { st with payload_size := amax 1 (amin 32 (size % 256)) % 256 }

/-- Method `void setAddressWidth(uint8_t size)`. -/
def setAddressWidth (D : Device σ) (cs : Nat) (size : Nat) (st : State σ) : State σ :=
  let st1 := { st with addr_width := amax 3 (amin 5 (size % 256)) % 256 }
  (write_register D cs SETUP_AW (st1.addr_width - 2) st1).2

/-- Method `void startListening()`. -/
def startListening (D : Device σ) (ce cs : Nat) (st : State σ) : State σ :=
  let st1 := (spi D cs FLUSH_RX [] 0 st).2
  let r := read_register D cs CONFIG st1
  let st3 := (write_register D cs CONFIG (r.1 ||| bit PRIM_RX) r.2).2
  let st4 := digitalWrite D ce true st3
  delayMicroseconds D 130 st4

/-- Method `void stopListening()`. -/
def stopListening (D : Device σ) (ce cs : Nat) (st : State σ) : State σ :=
  let st1 := digitalWrite D ce false st
  let st2 := delayMicroseconds D 250 st1
  let r := read_register D cs CONFIG st2
  (write_register D cs CONFIG (r.1 &&& compl32 (bit PRIM_RX)) r.2).2

/-- The loop `do { delayMicroseconds(200); } while (!(status() & (bit(TX_DS) | bit(MAX_RT))));`
of `write`, run for at most `fuel` rounds; `none` when the fuel runs out first. -/
def write_wait (D : Device σ) (cs : Nat) : Nat → State σ → Option (State σ)
  | 0, _ => none
  | fuel + 1, st =>
    let st1 := delayMicroseconds D 200 st
    let s := status D cs st1
    if s.1 &&& (bit TX_DS ||| bit MAX_RT) ≠ 0 then some s.2 else write_wait D cs fuel s.2

/-- Method `bool write(const void *buf, uint8_t len)`, its polling loop bounded by `fuel`. -/
def write (D : Device σ) (ce cs : Nat) (fuel : Nat) (buf : List Nat) (len : Nat)
    (st : State σ) : Option (Bool × State σ) :=
  let st1 := (spi D cs FLUSH_TX [] 0 st).2
  let st2 := (spi D cs W_TX_PAYLOAD buf len st1).2
  let st3 := digitalWrite D ce true st2
  let st4 := delayMicroseconds D 10 st3
  let st5 := digitalWrite D ce false st4
  match write_wait D cs fuel st5 with
  | none => none
  | some st6 =>
    let s := write_register D cs NRF_STATUS (bit TX_DS ||| bit MAX_RT) st6
    some (decide (bitRead s.1 TX_DS ≠ 0), s.2)

/-- Method `bool available()`; the right operand of `||` runs only when the left one is
false. -/
def available (D : Device σ) (cs : Nat) (st : State σ) : Bool × State σ :=
  let s := status D cs st
  if bitRead s.1 RX_DR ≠ 0 then (true, s.2)
  else
    let f := read_register D cs FIFO_STATUS s.2
    (decide (bitRead f.1 RX_EMPTY = 0), f.2)

/-- Method `void openReadingPipe(uint8_t num, const void *addr)`. In
`W_REGISTER | RX_ADDR_P0 + num` the sum binds tighter than the `|`. -/
def openReadingPipe (D : Device σ) (cs : Nat) (num : Nat) (addr : List Nat)
    (st : State σ) : State σ :=
  let n := num % 256
  let st1 := (spi D cs (W_REGISTER ||| (RX_ADDR_P0 + n)) addr st.addr_width st).2
  let r := read_register D cs EN_RXADDR st1
  let st3 := (write_register D cs EN_RXADDR (r.1 ||| bit n) r.2).2
  (write_register D cs (RX_PW_P0 + n) st3.payload_size st3).2

/-- Method `void openWritingPipe(const void *addr)`. -/
def openWritingPipe (D : Device σ) (cs : Nat) (addr : List Nat) (st : State σ) : State σ :=
  let st1 := (spi D cs (W_REGISTER ||| TX_ADDR) addr st.addr_width st).2
  openReadingPipe D cs 0 addr st1

/-- The eight bytes of a `uint64_t` in memory, least significant first (AVR and ARM
are little-endian): what `reinterpret_cast<const void*>(&addr)` points to. -/
def bytes_of_uint64 (addr : Nat) : List Nat :=
  (List.range 8).map (fun i => addr % 2 ^ 64 / 256 ^ i % 256)

/-- Method `void openReadingPipe(uint8_t num, uint64_t addr)`. -/
def openReadingPipe_u64 (D : Device σ) (cs : Nat) (num : Nat) (addr : Nat)
    (st : State σ) : State σ :=
  openReadingPipe D cs num (bytes_of_uint64 addr) st

/-- Method `void openWritingPipe(uint64_t addr)`. -/
def openWritingPipe_u64 (D : Device σ) (cs : Nat) (addr : Nat) (st : State σ) : State σ :=
  openWritingPipe D cs (bytes_of_uint64 addr) st

/-! ## The remaining methods -/

/-- The enumeration `rf24_pa_dbm_enum`. -/
inductive rf24_pa_dbm_enum where
  | RF24_PA_MIN
  | RF24_PA_LOW
  | RF24_PA_HIGH
  | RF24_PA_MAX
  | RF24_PA_ERROR
  deriving DecidableEq

/-- The integer value of an enumerator of `rf24_pa_dbm_enum`. -/
def rf24_pa_dbm_enum.toNat : rf24_pa_dbm_enum → Nat
  | RF24_PA_MIN => 0
  | RF24_PA_LOW => 2
  | RF24_PA_HIGH => 4
  | RF24_PA_MAX => 6
  | RF24_PA_ERROR => 7

/-- The enumeration `rf24_datarate_enum`. -/
inductive rf24_datarate_enum where
  | RF24_1MBPS
  | RF24_2MBPS
  | RF24_250KBPS
  deriving DecidableEq

/-- The integer value of an enumerator of `rf24_datarate_enum`. -/
def rf24_datarate_enum.toNat : rf24_datarate_enum → Nat
  | RF24_1MBPS => 0
  | RF24_2MBPS => 8
  | RF24_250KBPS => 0x20

/-- The enumeration `rf24_crclength_enum`. -/
inductive rf24_crclength_enum where
  | RF24_CRC_DISABLED
  | RF24_CRC_8
  | RF24_CRC_16
  deriving DecidableEq

/-- The integer value of an enumerator of `rf24_crclength_enum`. -/
def rf24_crclength_enum.toNat : rf24_crclength_enum → Nat
  | RF24_CRC_DISABLED => 0
  | RF24_CRC_8 => 8
  | RF24_CRC_16 => 0xC

/-- Primitive `SPI.begin()`: recorded in the log. -/
def SPI_begin (st : State σ) : State σ :=
  { st with log := st.log ++ [Event.spiBegin] }

/-- Primitive `pinMode(pin, OUTPUT)`: recorded in the log. -/
def pinMode (pin : Nat) (st : State σ) : State σ :=
  { st with log := st.log ++ [Event.pinMode pin] }

/-- Method `void begin()`. -/
def begin (D : Device σ) (ce cs : Nat) (st : State σ) : State σ :=
  let st1 := SPI_begin st
  let st2 := pinMode ce st1
  let st3 := pinMode cs st2
  let st4 := digitalWrite D ce false st3
  let st5 := digitalWrite D cs true st4
  let st6 := delayMicroseconds D 5000 st5
  let st7 := (write_register D cs NRF_STATUS (bit RX_DR ||| bit TX_DS ||| bit MAX_RT) st6).2
  let st8 := (write_register D cs SETUP_RETR 0x3f st7).2
  let st9 := (write_register D cs CONFIG 0b1010 st8).2
  delayMicroseconds D 1500 st9

/-- Method `bool available(uint8_t *pipe)`: the result, the byte stored in `*pipe`
and the new state. -/
def available_pipe (D : Device σ) (cs : Nat) (st : State σ) : Bool × Nat × State σ :=
  let s := status D cs st
  let pipe := ((s.1 >>> RX_P_NO) &&& 0b111) % 256
  let a := available D cs s.2
  (a.1, pipe, a.2)

/-- The library call `memset(buf, c, n)` on a buffer: its first `n` bytes become `c`. -/
def memset (buf : List Nat) (c n : Nat) : List Nat :=
  List.replicate n (c % 256) ++ buf.drop n

/-- Method `void read(void *buf, uint8_t len)`: the buffer after the call and the new
state. -/
def read (D : Device σ) (cs : Nat) (buf : List Nat) (len : Nat) (st : State σ) :
    List Nat × State σ :=
  let buf1 := memset buf NOP (len % 256)
  let r := spi_buf D cs R_RX_PAYLOAD buf1 len st
  let st2 := (write_register D cs NRF_STATUS (bit RX_DR) r.2.2).2
  (r.2.1, st2)

/-- Method `void setChannel(uint8_t channel)`. -/
def setChannel (D : Device σ) (cs : Nat) (channel : Nat) (st : State σ) : State σ :=
  (write_register D cs RF_CH channel st).2

/-- Method `void setPALevel(rf24_pa_dbm_enum level)`. -/
def setPALevel (D : Device σ) (cs : Nat) (level : rf24_pa_dbm_enum) (st : State σ) :
    State σ :=
  let r := read_register D cs RF_SETUP st
  (write_register D cs RF_SETUP ((r.1 &&& 0xF9) ||| level.toNat) r.2).2

/-- Method `void setDataRate(rf24_datarate_enum rate)`. -/
def setDataRate (D : Device σ) (cs : Nat) (rate : rf24_datarate_enum) (st : State σ) :
    State σ :=
  let r := read_register D cs RF_SETUP st
  (write_register D cs RF_SETUP ((r.1 &&& 0xD7) ||| rate.toNat) r.2).2

/-- Method `void setCRCLength(rf24_crclength_enum crclen)`. -/
def setCRCLength (D : Device σ) (cs : Nat) (crclen : rf24_crclength_enum) (st : State σ) :
    State σ :=
  let r := read_register D cs CONFIG st
  (write_register D cs CONFIG ((r.1 &&& 0xF3) ||| crclen.toNat) r.2).2

/-- Method `void setAutoAck(bool enable)`. -/
def setAutoAck (D : Device σ) (cs : Nat) (enable : Bool) (st : State σ) : State σ :=
  (write_register D cs EN_AA (if enable then 0x3F else 0) st).2

/-- Method `void setAutoAck(uint8_t pipe, bool enable)`. -/
def setAutoAck_pipe (D : Device σ) (cs : Nat) (pipe : Nat) (enable : Bool)
    (st : State σ) : State σ :=
  let r := read_register D cs EN_AA st
  let reg :=
    if enable then (r.1 ||| bit (pipe % 256)) % 256
    else (r.1 &&& compl32 (bit (pipe % 256))) % 256
  (write_register D cs EN_AA reg r.2).2

/-- Method `void powerDown()`. -/
def powerDown (D : Device σ) (cs : Nat) (st : State σ) : State σ :=
  let r := read_register D cs CONFIG st
  (write_register D cs CONFIG (r.1 &&& compl32 (bit PWR_UP)) r.2).2

/-- Method `void powerUp()`. -/
def powerUp (D : Device σ) (cs : Nat) (st : State σ) : State σ :=
  let r := read_register D cs CONFIG st
  let st2 := (write_register D cs CONFIG (r.1 ||| bit PWR_UP) r.2).2
  delayMicroseconds D 1500 st2

/-! ## The buffer overloads on memory

The methods above take a buffer as the list of its bytes, which cannot show what a
call leaves in the caller's buffer.  The definitions below take a pointer into a
byte-addressed memory instead: `mem a` is the byte at address `a`, the in-place
exchange writes the bytes received back to the addresses it read, and the local array
of the const-buffer `spi` is a region of the same memory. -/

/-- The `n` bytes of memory at the pointer `p`. -/
def load (mem : Nat → Nat) (p n : Nat) : List Nat :=
  (List.range n).map (fun i => mem (p + i))

/-- The library call `memcpy(dst, src, n)` on memory: the `n` bytes at `dst` become
those at `src`. -/
def memcpy (mem : Nat → Nat) (dst src n : Nat) : Nat → Nat :=
  fun a => if dst ≤ a ∧ a < dst + n then mem (src + (a - dst)) else mem a

/-- Primitive `SPI.transfer(buf, len)` on memory: each of the `len` bytes at the
pointer is clocked out and replaced in memory by the byte received for it. -/
def SPI_transfer_mem (D : Device σ) :
    (Nat → Nat) → Nat → Nat → State σ → (Nat → Nat) × State σ
  | mem, _, 0, st => (mem, st)
  | mem, p, n + 1, st =>
    let r := SPI_transfer D (mem p) st
    SPI_transfer_mem D (fun a => if a = p then r.1 else mem a) (p + 1) n r.2

/-- Method `uint8_t spi(uint8_t cmd, void *buf, uint8_t len)` on memory: the status
byte, the memory after the call and the new state. -/
def spi_buf_mem (D : Device σ) (cs : Nat) (cmd : Nat) (mem : Nat → Nat) (buf len : Nat)
    (st : State σ) : Nat × (Nat → Nat) × State σ :=
  let st1 := digitalWrite D cs false st
  let r := SPI_transfer D (cmd % 256) st1
  let rs := SPI_transfer_mem D mem buf (len % 256) r.2
  let st4 := digitalWrite D cs true rs.2
  (r.1, rs.1, st4)

/-- Method `uint8_t spi(uint8_t cmd, const void *buf = 0, uint8_t len = 0)` on memory;
`tmp` is the address at which its local array `uint8_t tmp[len]` lives. -/
def spi_mem (D : Device σ) (cs : Nat) (cmd : Nat) (mem : Nat → Nat) (buf len tmp : Nat)
    (st : State σ) : Nat × (Nat → Nat) × State σ :=
  let mem1 := if len % 256 ≠ 0 then memcpy mem tmp buf (len % 256) else mem
  spi_buf_mem D cs cmd mem1 tmp len st

/-- Method `void openReadingPipe(uint8_t num, const void *addr)` on memory; `tmp` is
where the local array of its `spi` call lives. The locals of `read_register` and
`write_register` are not part of the memory. -/
def openReadingPipe_mem (D : Device σ) (cs : Nat) (num : Nat) (mem : Nat → Nat)
    (addr tmp : Nat) (st : State σ) : (Nat → Nat) × State σ :=
  let n := num % 256
  let r := spi_mem D cs (W_REGISTER ||| (RX_ADDR_P0 + n)) mem addr st.addr_width tmp st
  let v := read_register D cs EN_RXADDR r.2.2
  let st3 := (write_register D cs EN_RXADDR (v.1 ||| bit n) v.2).2
  (r.2.1, (write_register D cs (RX_PW_P0 + n) st3.payload_size st3).2)

/-- Method `void openWritingPipe(const void *addr)` on memory; `tmp1` and `tmp2` are
where the local arrays of its two `spi` calls live. -/
def openWritingPipe_mem (D : Device σ) (cs : Nat) (mem : Nat → Nat)
    (addr tmp1 tmp2 : Nat) (st : State σ) : (Nat → Nat) × State σ :=
  let r := spi_mem D cs (W_REGISTER ||| TX_ADDR) mem addr st.addr_width tmp1 st
  openReadingPipe_mem D cs 0 r.2.1 addr tmp2 r.2.2

/-- A memory holding the bytes `9 9 9` at the addresses 0, 1, 2 and zero elsewhere. -/
def nines : Nat → Nat := fun a => if a < 3 then 9 else 0

/-- One round of the polling loop of `write`: the wait of 200 microseconds and the
status poll; the status byte and the new state. -/
def pollRound (D : Device σ) (cs : Nat) (st : State σ) : Nat × State σ :=
  status D cs (delayMicroseconds D 200 st)

/-- The state after `k` rounds of the polling loop. -/
def pollState (D : Device σ) (cs : Nat) : Nat → State σ → State σ
  | 0, st => st
  | k + 1, st => pollState D cs k (pollRound D cs st).2

/-- The status byte the device returns in round `k + 1` of the polling loop. -/
def pollByte (D : Device σ) (cs : Nat) (k : Nat) (st : State σ) : Nat :=
  (pollRound D cs (pollState D cs k st)).1

/-- The state in which `write` enters its polling loop: after FLUSH_TX, W_TX_PAYLOAD
and the pulse on chip-enable. -/
def writeStart (D : Device σ) (ce cs : Nat) (buf : List Nat) (len : Nat)
    (st : State σ) : State σ :=
  let st1 := (spi D cs FLUSH_TX [] 0 st).2
  let st2 := (spi D cs W_TX_PAYLOAD buf len st1).2
  let st3 := digitalWrite D ce true st2
  let st4 := delayMicroseconds D 10 st3
  digitalWrite D ce false st4

/-- A device that answers the bytes clocked out with 1, 2, 3, ... in turn. -/
def countChip : Device Nat where
  pin c _ _ := c
  wait c _ := c
  xfer c _ := (c + 1, c + 1)

/-- A freshly constructed `RF24<ce, cs, t_payload_size>` in a given environment. -/
def RF24_new (t_payload_size : Nat) (chip : σ) (pins : Nat → Bool) (uninit : Nat) :
    State σ :=
  { payload_size := amax 1 (amin 32 (t_payload_size % 256)) % 256
    addr_width := 5
    chip := chip
    pins := pins
    log := []
    uninit := uninit }

/-! ## A simulated chip -/

/-- State of the simulated chip: the register file (`regs r i` is byte `i` of
register `r`), the command byte of the transaction in progress and the number of
data bytes it has seen. -/
structure SimChip where
  regs : Nat → Nat → Nat
  cmd : Option Nat
  idx : Nat

/-- What a data byte `b` written to byte `i` of register `r` leaves in the register
file: STATUS clears its RX_DR, TX_DS and MAX_RT bits where `b` has a one and keeps
its other bits, every other register stores the byte. -/
def simStore (regs : Nat → Nat → Nat) (r i b : Nat) : Nat → Nat → Nat :=
  fun r1 i1 =>
    if r1 = r ∧ i1 = i then
      (if r = NRF_STATUS then regs r i &&& (0xFF ^^^ (b &&& 0x70)) else b)
    else regs r1 i1

/-- Modelled from the spec: the simulated chip of the testable properties, which is
not part of the sources. It stores written register bytes, applies write-one-to-clear
to the STATUS flags, answers every command byte with STATUS and every data byte of a
register read with the register's byte; chip-select going either way ends the
transaction. Commands other than register reads and writes change no register. -/
def simChip (cs : Nat) : Device SimChip where
  pin c p _ := if p = cs then { c with cmd := none, idx := 0 } else c
  wait c _ := c
  xfer c b :=
    match c.cmd with
    | none => ({ c with cmd := some b, idx := 0 }, c.regs NRF_STATUS 0)
    | some k =>
      if k < W_REGISTER then ({ c with idx := c.idx + 1 }, c.regs k c.idx)
      else if k < 0x40 then
        ({ c with regs := simStore c.regs (k - W_REGISTER) c.idx b, idx := c.idx + 1 }, 0)
      else ({ c with idx := c.idx + 1 }, 0)

/-- A simulated chip with every register zero except STATUS, FIFO_STATUS and CONFIG. -/
def simInit (statusByte fifo config : Nat) : SimChip :=
  { regs := fun r i =>
      if i ≠ 0 then 0
      else if r = NRF_STATUS then statusByte
      else if r = FIFO_STATUS then fifo
      else if r = CONFIG then config
      else 0
    cmd := none
    idx := 0 }

/-- A concrete driver on the simulated chip: chip-enable on pin 9, chip-select on
pin 10, STATUS `0x1E` (MAX_RT set, RX FIFO empty), FIFO_STATUS `0x11`, CONFIG `0x0A`. -/
def demo : State SimChip :=
  RF24_new 16 (simInit 0x1E 0x11 0x0A) (fun _ => false) 0xAA

/-- The events of one bus transaction: chip-select low, the command byte `cmd`
answered by `s`, the data bytes `sent` answered one by one by `recv`, chip-select
high. -/
def frame (cs cmd s : Nat) (sent recv : List Nat) : List Event :=
  [Event.digitalWrite cs false, Event.transfer cmd s] ++
    List.zipWith Event.transfer sent recv ++ [Event.digitalWrite cs true]

/-- Reads the bus transactions off a log: `cur` is the transaction in progress, its
bytes newest first. -/
def transactionsAux (cs : Nat) : List Event → Option (List Nat) → List (List Nat)
  | [], _ => []
  | Event.digitalWrite p l :: es, cur =>
    if p = cs then
      if l then
        match cur with
        | some f => f.reverse :: transactionsAux cs es none
        | none => transactionsAux cs es none
      else transactionsAux cs es (some [])
    else transactionsAux cs es cur
  | Event.transfer b _ :: es, cur => transactionsAux cs es (cur.map (fun f => b :: f))
  | _ :: es, cur => transactionsAux cs es cur

/-- The bus transactions of a log, each the list of the bytes sent between
chip-select going low and going high, the command byte first. -/
def transactions (cs : Nat) (log : List Event) : List (List Nat) :=
  transactionsAux cs log none

/-- The events of the first `k` rounds of the polling loop: each round is the wait of
200 microseconds followed by the NOP transaction. -/
def pollEvents (D : Device σ) (cs : Nat) (k : Nat) (st : State σ) : List Event :=
  (List.range k).flatMap
    (fun j => Event.delayMicroseconds 200 :: frame cs 0xFF (pollByte D cs j st) [] [])

/-- The registers after the data bytes `data` of a register write to `r`, the first
of them going to byte `i`. -/
def simWrite (regs : Nat → Nat → Nat) (r : Nat) : Nat → List Nat → Nat → Nat → Nat
  | _, [] => regs
  | i, b :: bs => simWrite (simStore regs r i b) r (i + 1) bs

/-- The state a transaction leaves on the simulated chip: registers `regs`, no
transaction in progress, chip-select high, `events` appended to the log. -/
def simAfter (cs : Nat) (st : State SimChip) (regs : Nat → Nat → Nat)
    (events : List Event) : State SimChip :=
  { st with
    chip := { regs := regs, cmd := none, idx := 0 }
    pins := fun p => if p = cs then true else st.pins p
    log := st.log ++ events }

/-! ## Projections of the primitives -/

@[simp] theorem digitalWrite_log (D : Device σ) (p : Nat) (l : Bool) (st : State σ) :
    (digitalWrite D p l st).log = st.log ++ [Event.digitalWrite p l] := rfl

@[simp] theorem digitalWrite_pins (D : Device σ) (p : Nat) (l : Bool) (st : State σ)
    (q : Nat) : (digitalWrite D p l st).pins q = if q = p then l else st.pins q := rfl

@[simp] theorem digitalWrite_payload_size (D : Device σ) (p : Nat) (l : Bool)
    (st : State σ) : (digitalWrite D p l st).payload_size = st.payload_size := rfl

@[simp] theorem digitalWrite_addr_width (D : Device σ) (p : Nat) (l : Bool)
    (st : State σ) : (digitalWrite D p l st).addr_width = st.addr_width := rfl

@[simp] theorem digitalWrite_uninit (D : Device σ) (p : Nat) (l : Bool)
    (st : State σ) : (digitalWrite D p l st).uninit = st.uninit := rfl

@[simp] theorem delayMicroseconds_log (D : Device σ) (us : Nat) (st : State σ) :
    (delayMicroseconds D us st).log = st.log ++ [Event.delayMicroseconds us] := rfl

@[simp] theorem delayMicroseconds_pins (D : Device σ) (us : Nat) (st : State σ) :
    (delayMicroseconds D us st).pins = st.pins := rfl

@[simp] theorem delayMicroseconds_payload_size (D : Device σ) (us : Nat) (st : State σ) :
    (delayMicroseconds D us st).payload_size = st.payload_size := rfl

@[simp] theorem delayMicroseconds_addr_width (D : Device σ) (us : Nat) (st : State σ) :
    (delayMicroseconds D us st).addr_width = st.addr_width := rfl

@[simp] theorem delayMicroseconds_uninit (D : Device σ) (us : Nat) (st : State σ) :
    (delayMicroseconds D us st).uninit = st.uninit := rfl

@[simp] theorem sim_digitalWrite_regs (cs p : Nat) (l : Bool) (st : State SimChip) :
    (digitalWrite (simChip cs) p l st).chip.regs = st.chip.regs := by
  simp only [digitalWrite, simChip]
  split_ifs <;> rfl

@[simp] theorem sim_delayMicroseconds_chip (cs us : Nat) (st : State SimChip) :
    (delayMicroseconds (simChip cs) us st).chip = st.chip := rfl

/-! ## Lemmas on the simulated chip -/

@[simp] theorem simAfter_regs (cs : Nat) (st : State SimChip) (regs : Nat → Nat → Nat)
    (ev : List Event) : (simAfter cs st regs ev).chip.regs = regs := rfl

@[simp] theorem simAfter_log (cs : Nat) (st : State SimChip) (regs : Nat → Nat → Nat)
    (ev : List Event) : (simAfter cs st regs ev).log = st.log ++ ev := rfl

@[simp] theorem simAfter_pins (cs : Nat) (st : State SimChip) (regs : Nat → Nat → Nat)
    (ev : List Event) (p : Nat) :
    (simAfter cs st regs ev).pins p = if p = cs then true else st.pins p := rfl

@[simp] theorem simAfter_payload_size (cs : Nat) (st : State SimChip)
    (regs : Nat → Nat → Nat) (ev : List Event) :
    (simAfter cs st regs ev).payload_size = st.payload_size := rfl

@[simp] theorem simAfter_addr_width (cs : Nat) (st : State SimChip)
    (regs : Nat → Nat → Nat) (ev : List Event) :
    (simAfter cs st regs ev).addr_width = st.addr_width := rfl

@[simp] theorem simAfter_uninit (cs : Nat) (st : State SimChip)
    (regs : Nat → Nat → Nat) (ev : List Event) :
    (simAfter cs st regs ev).uninit = st.uninit := rfl

/-- Data bytes of a command that is no register access change no register. -/
theorem sim_data_other (cs k : Nat) (hk : 0x40 ≤ k) (data : List Nat) :
    ∀ st : State SimChip, st.chip.cmd = some k →
      SPI_transfer_buf (simChip cs) data st =
        (List.replicate data.length 0,
         { st with
           chip := { st.chip with idx := st.chip.idx + data.length }
           log := st.log ++ data.map (fun b => Event.transfer b 0) }) := by
  induction data with
  | nil => intro st _; simp [SPI_transfer_buf]
  | cons b bs ih =>
    intro st hc
    have h1 : ¬ k < 32 := by omega
    have h2 : ¬ k < 64 := by omega
    simp only [SPI_transfer_buf]
    rw [ih]
    · simp [SPI_transfer, simChip, hc, h1, h2, List.replicate_succ, W_REGISTER]
      omega
    · simp [SPI_transfer, simChip, hc, h1, h2, W_REGISTER]

/-- Data bytes of a register write go to consecutive bytes of the register. -/
theorem sim_data_write (cs k : Nat) (hk1 : 0x20 ≤ k) (hk2 : k < 0x40) (data : List Nat) :
    ∀ st : State SimChip, st.chip.cmd = some k →
      SPI_transfer_buf (simChip cs) data st =
        (List.replicate data.length 0,
         { st with
           chip := { regs := simWrite st.chip.regs (k - 0x20) st.chip.idx data
                     cmd := some k
                     idx := st.chip.idx + data.length }
           log := st.log ++ data.map (fun b => Event.transfer b 0) }) := by
  induction data with
  | nil =>
    intro st hc
    simp [SPI_transfer_buf, simWrite, ← hc]
  | cons b bs ih =>
    intro st hc
    have h1 : ¬ k < 32 := by omega
    simp only [SPI_transfer_buf]
    rw [ih]
    · simp [SPI_transfer, simChip, hc, h1, hk2, List.replicate_succ, simWrite, W_REGISTER]
      omega
    · simp [SPI_transfer, simChip, hc, h1, hk2, W_REGISTER]

/-- A transaction on the simulated chip whose command is no register access: the
status byte comes back, every data byte is answered by zero, no register changes. -/
theorem sim_spi_other (cs k : Nat) (hk1 : 0x40 ≤ k) (hk2 : k < 256) (buf : List Nat)
    (len : Nat) (st : State SimChip) :
    spi (simChip cs) cs k buf len st =
      (st.chip.regs NRF_STATUS 0 % 256,
       simAfter cs st st.chip.regs
         ([Event.digitalWrite cs false, Event.transfer k (st.chip.regs NRF_STATUS 0 % 256)] ++
          (buf.take (len % 256)).map (fun b => Event.transfer b 0) ++
          [Event.digitalWrite cs true])) := by
  simp only [spi, spi_buf, List.take_take, min_self, Nat.mod_eq_of_lt hk2]
  rw [sim_data_other cs k hk1]
  · simp [SPI_transfer, digitalWrite, simChip, simAfter]
    funext p
    by_cases hp : p = cs <;> simp [hp]
  · simp [SPI_transfer, digitalWrite, simChip]

/-- A register-write transaction on the simulated chip: the status byte comes back
and the data bytes go to the register addressed by the command. -/
theorem sim_spi_write (cs k : Nat) (hk1 : 0x20 ≤ k) (hk2 : k < 0x40) (buf : List Nat)
    (len : Nat) (st : State SimChip) :
    spi (simChip cs) cs k buf len st =
      (st.chip.regs NRF_STATUS 0 % 256,
       simAfter cs st (simWrite st.chip.regs (k - 0x20) 0 (buf.take (len % 256)))
         ([Event.digitalWrite cs false, Event.transfer k (st.chip.regs NRF_STATUS 0 % 256)] ++
          (buf.take (len % 256)).map (fun b => Event.transfer b 0) ++
          [Event.digitalWrite cs true])) := by
  have hk3 : k % 256 = k := by omega
  simp only [spi, spi_buf, List.take_take, min_self, hk3]
  rw [sim_data_write cs k hk1 hk2]
  · simp [SPI_transfer, digitalWrite, simChip, simAfter]
    funext p
    by_cases hp : p = cs <;> simp [hp]
  · simp [SPI_transfer, digitalWrite, simChip]

/-- The command byte of a register write is `0x20 + a` for a 5-bit address. -/
theorem w_register_or (a : Nat) (ha : a < 32) : W_REGISTER ||| a = 32 + a := by
  simp only [W_REGISTER]
  interval_cases a <;> rfl

/-- Behaviour of `write_register` on the simulated chip, for a 5-bit register address. -/
theorem sim_write_register (cs a v : Nat) (ha : a < 32) (st : State SimChip) :
    write_register (simChip cs) cs a v st =
      (st.chip.regs NRF_STATUS 0 % 256,
       simAfter cs st (simStore st.chip.regs a 0 (v % 256))
         [Event.digitalWrite cs false,
          Event.transfer (32 + a) (st.chip.regs NRF_STATUS 0 % 256),
          Event.transfer (v % 256) 0, Event.digitalWrite cs true]) := by
  have h1 : a % 256 = a := by omega
  have h2 : (32 + a) % 256 = 32 + a := by omega
  have h3 : ¬ 32 + a < 32 := by omega
  have h4 : 32 + a < 64 := by omega
  simp only [write_register, h1, w_register_or a ha]
  simp [spi_buf, SPI_transfer_buf, SPI_transfer, digitalWrite, simChip, simAfter, h2, h3, h4,
    W_REGISTER]
  funext p
  by_cases hp : p = cs <;> simp [hp]

/-- Behaviour of `read_register` on the simulated chip, for a 5-bit register address. -/
theorem sim_read_register (cs a : Nat) (ha : a < 32) (st : State SimChip) :
    read_register (simChip cs) cs a st =
      (st.chip.regs a 0 % 256,
       simAfter cs st st.chip.regs
         [Event.digitalWrite cs false,
          Event.transfer a (st.chip.regs NRF_STATUS 0 % 256),
          Event.transfer st.uninit (st.chip.regs a 0 % 256), Event.digitalWrite cs true]) := by
  have h1 : a % 256 = a := by omega
  simp only [read_register, h1, R_REGISTER, Nat.zero_or]
  simp [spi_buf, SPI_transfer_buf, SPI_transfer, digitalWrite, simChip, simAfter, h1, ha,
    W_REGISTER]
  funext p
  by_cases hp : p = cs <;> simp [hp]

/-- Behaviour of `status` on the simulated chip. -/
theorem sim_status (cs : Nat) (st : State SimChip) :
    status (simChip cs) cs st =
      (st.chip.regs NRF_STATUS 0 % 256,
       simAfter cs st st.chip.regs
         [Event.digitalWrite cs false,
          Event.transfer 0xFF (st.chip.regs NRF_STATUS 0 % 256),
          Event.digitalWrite cs true]) := by
  simp only [status, NOP]
  rw [sim_spi_other cs 0xFF (by decide) (by decide)]
  simp

/-- The registers after a multi-byte write to a register other than STATUS: byte
`i + j` of the register holds the `j`-th data byte, everything else is unchanged. -/
theorem simWrite_apply (r : Nat) (hr : r ≠ NRF_STATUS) (data : List Nat) :
    ∀ (regs : Nat → Nat → Nat) (i r1 j : Nat),
      simWrite regs r i data r1 j =
        if r1 = r ∧ i ≤ j ∧ j < i + data.length then data.getD (j - i) 0 else regs r1 j := by
  induction data with
  | nil =>
    intro regs i r1 j
    have h : ¬ (r1 = r ∧ i ≤ j ∧ j < i + ([] : List Nat).length) := by
      simp only [List.length_nil]; omega
    rw [if_neg h]
    rfl
  | cons b bs ih =>
    intro regs i r1 j
    simp only [simWrite, ih, List.length_cons]
    by_cases h1 : r1 = r
    · by_cases h2 : j = i
      · subst h2
        simp [h1, simStore, hr]
      · by_cases h3 : i + 1 ≤ j ∧ j < i + 1 + bs.length
        · have h4 : i ≤ j ∧ j < i + (bs.length + 1) := by omega
          have h5 : j - i = (j - (i + 1)) + 1 := by omega
          simp only [h1, h3, h4, and_self, if_true, true_and]
          rw [h5, List.getD_cons_succ]
        · have h4 : ¬ (i ≤ j ∧ j < i + (bs.length + 1)) := by omega
          simp only [h1, h3, h4, and_false, if_false, simStore, true_and, h2]
    · simp [h1, simStore]

/-- Reading a register back byte by byte after a multi-byte write yields the data. -/
theorem simWrite_readback (r : Nat) (hr : r ≠ NRF_STATUS) (data : List Nat)
    (regs : Nat → Nat → Nat) :
    (List.range data.length).map (simWrite regs r 0 data r) = data := by
  apply List.ext_getElem
  · simp
  · intro n h1 h2
    simp only [List.getElem_map, List.getElem_range, simWrite_apply r hr]
    have h3 : True ∧ 0 ≤ n ∧ n < 0 + data.length := ⟨trivial, by omega, by omega⟩
    rw [if_pos h3, Nat.sub_zero, List.getD_eq_getElem _ _ h2]

/-- A single-byte store to a register leaves every other register alone. -/
theorem simStore_other (regs : Nat → Nat → Nat) (r i b r1 j : Nat) (h : r1 ≠ r) :
    simStore regs r i b r1 j = regs r1 j := by
  simp [simStore, h]

/-- A single-byte store to a register other than STATUS stores the byte. -/
theorem simStore_same (regs : Nat → Nat → Nat) (r i b : Nat) (h : r ≠ NRF_STATUS) :
    simStore regs r i b r i = b := by
  simp [simStore, h]

/-- Behaviour of `openReadingPipe` on the simulated chip, for a pipe index in 0..5: the address
bytes go to RX_ADDR_Pn, the pipe's bit is set in EN_RXADDR, the payload size goes to
RX_PW_Pn. -/
theorem sim_openReadingPipe (cs n : Nat) (hn : n ≤ 5) (addr : List Nat)
    (st : State SimChip) :
    openReadingPipe (simChip cs) cs n addr st =
      simAfter cs
        (simAfter cs
          (simAfter cs
            (simAfter cs st
              (simWrite st.chip.regs (RX_ADDR_P0 + n) 0 (addr.take (st.addr_width % 256)))
              ([Event.digitalWrite cs false,
                Event.transfer (42 + n) (st.chip.regs NRF_STATUS 0 % 256)] ++
               (addr.take (st.addr_width % 256)).map (fun b => Event.transfer b 0) ++
               [Event.digitalWrite cs true]))
            (simWrite st.chip.regs (RX_ADDR_P0 + n) 0 (addr.take (st.addr_width % 256)))
            [Event.digitalWrite cs false,
             Event.transfer 2 (st.chip.regs NRF_STATUS 0 % 256),
             Event.transfer st.uninit
               (simWrite st.chip.regs (RX_ADDR_P0 + n) 0 (addr.take (st.addr_width % 256))
                 EN_RXADDR 0 % 256),
             Event.digitalWrite cs true])
          (simStore
            (simWrite st.chip.regs (RX_ADDR_P0 + n) 0 (addr.take (st.addr_width % 256)))
            EN_RXADDR 0
            ((simWrite st.chip.regs (RX_ADDR_P0 + n) 0 (addr.take (st.addr_width % 256))
                EN_RXADDR 0 % 256 ||| bit n) % 256))
          [Event.digitalWrite cs false,
           Event.transfer 34 (st.chip.regs NRF_STATUS 0 % 256),
           Event.transfer
             ((simWrite st.chip.regs (RX_ADDR_P0 + n) 0 (addr.take (st.addr_width % 256))
                EN_RXADDR 0 % 256 ||| bit n) % 256) 0,
           Event.digitalWrite cs true])
        (simStore
          (simStore
            (simWrite st.chip.regs (RX_ADDR_P0 + n) 0 (addr.take (st.addr_width % 256)))
            EN_RXADDR 0
            ((simWrite st.chip.regs (RX_ADDR_P0 + n) 0 (addr.take (st.addr_width % 256))
                EN_RXADDR 0 % 256 ||| bit n) % 256))
          (RX_PW_P0 + n) 0 (st.payload_size % 256))
        [Event.digitalWrite cs false,
         Event.transfer (49 + n) (st.chip.regs NRF_STATUS 0 % 256),
         Event.transfer (st.payload_size % 256) 0,
         Event.digitalWrite cs true] := by
  have h1 : n % 256 = n := by omega
  have h2 : W_REGISTER ||| (RX_ADDR_P0 + n) = 42 + n := by
    rw [w_register_or _ (by simp only [RX_ADDR_P0]; omega)]
    simp only [RX_ADDR_P0]; omega
  have h3 : 42 + n - 32 = RX_ADDR_P0 + n := by simp only [RX_ADDR_P0]; omega
  have h4 : RX_ADDR_P0 + n ≠ NRF_STATUS := by
    simp only [RX_ADDR_P0, NRF_STATUS]; omega
  have h5 : 32 + (RX_PW_P0 + n) = 49 + n := by simp only [RX_PW_P0]; omega
  have h6 : ∀ regs : Nat → Nat → Nat,
      simWrite regs (RX_ADDR_P0 + n) 0 (addr.take (st.addr_width % 256)) NRF_STATUS 0 =
        regs NRF_STATUS 0 := by
    intro regs
    rw [simWrite_apply _ h4, if_neg]
    intro h
    exact h4 h.1.symm
  have h7 : ∀ (regs : Nat → Nat → Nat) (b : Nat),
      simStore regs EN_RXADDR 0 b NRF_STATUS 0 = regs NRF_STATUS 0 :=
    fun regs b => simStore_other regs _ _ _ _ _ (by decide)
  have h8 : 32 + EN_RXADDR = 34 := rfl
  simp only [openReadingPipe, h1, h2,
    sim_spi_write cs (42 + n) (by omega) (by omega),
    sim_read_register cs EN_RXADDR (by decide),
    sim_write_register cs EN_RXADDR _ (by decide),
    sim_write_register cs (RX_PW_P0 + n) _ (by simp only [RX_PW_P0]; omega),
    simAfter_regs, simAfter_uninit, simAfter_payload_size, h3, h5, h6, h7, h8, Nat.mod_mod]
  rfl

/-- The registers `openReadingPipe` leaves on the simulated chip. -/
theorem sim_openReadingPipe_regs (cs n : Nat) (hn : n ≤ 5) (addr : List Nat)
    (st : State SimChip) :
    (openReadingPipe (simChip cs) cs n addr st).chip.regs =
      simStore
        (simStore
          (simWrite st.chip.regs (RX_ADDR_P0 + n) 0 (addr.take (st.addr_width % 256)))
          EN_RXADDR 0
          ((simWrite st.chip.regs (RX_ADDR_P0 + n) 0 (addr.take (st.addr_width % 256))
              EN_RXADDR 0 % 256 ||| bit n) % 256))
        (RX_PW_P0 + n) 0 (st.payload_size % 256) := by
  rw [sim_openReadingPipe cs n hn]
  rfl

/-- The state `openWritingPipe` hands to `openReadingPipe` on the simulated chip. -/
theorem sim_openWritingPipe (cs : Nat) (addr : List Nat) (st : State SimChip) :
    openWritingPipe (simChip cs) cs addr st =
      openReadingPipe (simChip cs) cs 0 addr
        (simAfter cs st
          (simWrite st.chip.regs TX_ADDR 0 (addr.take (st.addr_width % 256)))
          ([Event.digitalWrite cs false,
            Event.transfer 48 (st.chip.regs NRF_STATUS 0 % 256)] ++
           (addr.take (st.addr_width % 256)).map (fun b => Event.transfer b 0) ++
           [Event.digitalWrite cs true])) := by
  have h : W_REGISTER ||| TX_ADDR = 48 := by decide
  simp only [openWritingPipe, h, sim_spi_write cs 48 (by decide) (by decide)]
  rfl

/-- Setting a bit with `|` and truncating to a byte leaves the bit set. -/
theorem testBit_or_bit_mod (v n : Nat) (hn : n < 8) :
    ((v ||| bit n) % 256).testBit n = true := by
  have h256 : (256 : Nat) = 2 ^ 8 := by norm_num
  have hb : bit n = 2 ^ n := by
    simp only [bit, Nat.shiftLeft_eq, Nat.one_mul]
    apply Nat.mod_eq_of_lt
    exact Nat.pow_lt_pow_right (by norm_num) (by omega)
  rw [h256, Nat.testBit_mod_two_pow, Nat.testBit_or, hb, Nat.testBit_two_pow_self]
  simp [hn]

/-- The address register after `openReadingPipe` on the simulated chip. -/
theorem sim_openReadingPipe_addr (cs n : Nat) (hn : n ≤ 5) (addr : List Nat)
    (st : State SimChip) :
    (openReadingPipe (simChip cs) cs n addr st).chip.regs (RX_ADDR_P0 + n) =
      simWrite st.chip.regs (RX_ADDR_P0 + n) 0 (addr.take (st.addr_width % 256))
        (RX_ADDR_P0 + n) := by
  funext i
  rw [sim_openReadingPipe_regs cs n hn,
    simStore_other _ _ _ _ _ _ (by simp only [RX_ADDR_P0, RX_PW_P0]; omega),
    simStore_other _ _ _ _ _ _ (by simp only [RX_ADDR_P0, EN_RXADDR]; omega)]

/-- Registers other than RX_ADDR_Pn, EN_RXADDR and RX_PW_Pn are left alone by
`openReadingPipe` on the simulated chip. -/
theorem sim_openReadingPipe_frame (cs n : Nat) (hn : n ≤ 5) (addr : List Nat)
    (st : State SimChip) (r : Nat) (h1 : r ≠ RX_ADDR_P0 + n) (h2 : r ≠ EN_RXADDR)
    (h3 : r ≠ RX_PW_P0 + n) :
    (openReadingPipe (simChip cs) cs n addr st).chip.regs r = st.chip.regs r := by
  funext i
  rw [sim_openReadingPipe_regs cs n hn, simStore_other _ _ _ _ _ _ h3,
    simStore_other _ _ _ _ _ _ h2,
    simWrite_apply _ (by simp only [RX_ADDR_P0, NRF_STATUS]; omega), if_neg]
  intro h
  exact h1 h.1

/-- The pipe's enable bit after `openReadingPipe` on the simulated chip. -/
theorem sim_openReadingPipe_enable (cs n : Nat) (hn : n ≤ 5) (addr : List Nat)
    (st : State SimChip) :
    ((openReadingPipe (simChip cs) cs n addr st).chip.regs EN_RXADDR 0).testBit n = true := by
  rw [sim_openReadingPipe_regs cs n hn,
    simStore_other _ _ _ _ _ _ (by simp only [EN_RXADDR, RX_PW_P0]; omega),
    simStore_same _ _ _ _ (by decide)]
  exact testBit_or_bit_mod _ n (by omega)

/-- The pipe's width register after `openReadingPipe` on the simulated chip. -/
theorem sim_openReadingPipe_width (cs n : Nat) (hn : n ≤ 5) (addr : List Nat)
    (st : State SimChip) :
    (openReadingPipe (simChip cs) cs n addr st).chip.regs (RX_PW_P0 + n) 0 =
      st.payload_size % 256 := by
  rw [sim_openReadingPipe_regs cs n hn,
    simStore_same _ _ _ _ (by simp only [NRF_STATUS, RX_PW_P0]; omega)]

/-- Any number of `setPayloadSize` calls touches neither the log nor the chip. -/
theorem setPayloadSize_foldl (sizes : List Nat) :
    ∀ st : State σ,
      (sizes.foldl (fun acc z => setPayloadSize z acc) st).log = st.log ∧
      (sizes.foldl (fun acc z => setPayloadSize z acc) st).chip = st.chip := by
  induction sizes with
  | nil => intro st; exact ⟨rfl, rfl⟩
  | cons z zs ih =>
    intro st
    simp only [List.foldl_cons]
    exact ih (setPayloadSize z st)

@[simp] theorem sim_openReadingPipe_addr_width (cs n : Nat) (hn : n ≤ 5)
    (addr : List Nat) (st : State SimChip) :
    (openReadingPipe (simChip cs) cs n addr st).addr_width = st.addr_width := by
  rw [sim_openReadingPipe cs n hn]
  rfl

/-- The transmit address register after `openWritingPipe` on the simulated chip. -/
theorem sim_openWritingPipe_tx (cs : Nat) (addr : List Nat) (st : State SimChip) :
    (openWritingPipe (simChip cs) cs addr st).chip.regs TX_ADDR =
      simWrite st.chip.regs TX_ADDR 0 (addr.take (st.addr_width % 256)) TX_ADDR := by
  rw [sim_openWritingPipe,
    sim_openReadingPipe_frame cs 0 (by decide) _ _ TX_ADDR (by decide) (by decide)
      (by decide)]
  rfl

/-! ## Lemmas on bits and on the log -/

/-- Macro `bitRead` is non-zero exactly when the bit is set. -/
theorem bitRead_ne_zero_iff (s b : Nat) : bitRead s b ≠ 0 ↔ s.testBit b = true := by
  simp [bitRead, Nat.testBit, Nat.land_comm]

/-- Macro `bitRead` is zero exactly when the bit is clear. -/
theorem bitRead_eq_zero_iff (s b : Nat) : bitRead s b = 0 ↔ s.testBit b = false := by
  simp [bitRead, Nat.testBit, Nat.land_comm]

/-- A number with a bit of the mask set has a non-zero intersection with the mask. -/
theorem land_ne_zero_of_testBit (s m i : Nat) (hs : s.testBit i = true)
    (hm : m.testBit i = true) : s &&& m ≠ 0 := by
  intro h
  have h1 : (s &&& m).testBit i = true := by rw [Nat.testBit_and, hs, hm]; rfl
  rw [h] at h1
  simp at h1

/-- The log of `write_register` on any device: one transaction of a command byte and
one data byte, the command byte answered by the status byte that is returned. -/
theorem write_register_log (D : Device σ) (cs a v : Nat) (st : State σ) :
    ∃ r, (write_register D cs a v st).2.log = st.log ++
      [Event.digitalWrite cs false,
       Event.transfer ((W_REGISTER ||| a % 256) % 256) (write_register D cs a v st).1,
       Event.transfer (v % 256) r, Event.digitalWrite cs true] := by
  apply Exists.intro
  simp [write_register, spi_buf, SPI_transfer_buf, SPI_transfer, digitalWrite]
  rfl

/-- The bus exchange of a buffer answers every byte with one byte and logs the
pairs in order. -/
theorem SPI_transfer_buf_log (D : Device σ) (data : List Nat) :
    ∀ st : State σ,
      (SPI_transfer_buf D data st).1.length = data.length ∧
      (SPI_transfer_buf D data st).2.log =
        st.log ++ List.zipWith Event.transfer data (SPI_transfer_buf D data st).1 ∧
      (SPI_transfer_buf D data st).2.payload_size = st.payload_size ∧
      (SPI_transfer_buf D data st).2.addr_width = st.addr_width ∧
      (SPI_transfer_buf D data st).2.uninit = st.uninit := by
  induction data with
  | nil => intro st; simp [SPI_transfer_buf]
  | cons b bs ih =>
    intro st
    obtain ⟨h1, h2, h3, h4, h5⟩ := ih (SPI_transfer D b st).2
    simp only [SPI_transfer_buf, List.length_cons, h1, h2, h3, h4, h5, List.zipWith_cons_cons]
    simp [SPI_transfer]

/-- The log of the const-buffer `spi` on any device: chip-select low, the command
byte answered by the returned status byte, the first `len` bytes of the buffer each
answered by one byte, chip-select high. The data members are untouched. -/
theorem spi_log (D : Device σ) (cs cmd : Nat) (buf : List Nat) (len : Nat) (st : State σ) :
    (∃ rs : List Nat, rs.length = (buf.take (len % 256)).length ∧
      (spi D cs cmd buf len st).2.log = st.log ++
        ([Event.digitalWrite cs false, Event.transfer (cmd % 256) (spi D cs cmd buf len st).1] ++
         List.zipWith Event.transfer (buf.take (len % 256)) rs ++
         [Event.digitalWrite cs true])) ∧
    (spi D cs cmd buf len st).2.payload_size = st.payload_size ∧
    (spi D cs cmd buf len st).2.addr_width = st.addr_width ∧
    (spi D cs cmd buf len st).2.uninit = st.uninit := by
  obtain ⟨h1, h2, h3, h4, h5⟩ := SPI_transfer_buf_log D (buf.take (len % 256))
    (SPI_transfer D (cmd % 256) (digitalWrite D cs false st)).2
  refine ⟨⟨(SPI_transfer_buf D (buf.take (len % 256))
    (SPI_transfer D (cmd % 256) (digitalWrite D cs false st)).2).1, h1, ?_⟩, ?_, ?_, ?_⟩
  · simp only [spi, spi_buf, List.take_take, min_self, digitalWrite_log, h2]
    simp [SPI_transfer]
  · simp only [spi, spi_buf, List.take_take, min_self, digitalWrite_payload_size, h3]
    simp [SPI_transfer]
  · simp only [spi, spi_buf, List.take_take, min_self, digitalWrite_addr_width, h4]
    simp [SPI_transfer]
  · simp only [spi, spi_buf, List.take_take, min_self, digitalWrite_uninit, h5]
    simp [SPI_transfer]

/-- The log of `read_register` on any device: one transaction of the command byte
and one dummy data byte, which is answered by the value that is returned. -/
theorem read_register_log (D : Device σ) (cs a : Nat) (st : State σ) :
    ∃ s, (read_register D cs a st).2.log = st.log ++
      [Event.digitalWrite cs false,
       Event.transfer ((R_REGISTER ||| a % 256) % 256) s,
       Event.transfer st.uninit (read_register D cs a st).1, Event.digitalWrite cs true] := by
  apply Exists.intro
  simp [read_register, spi_buf, SPI_transfer_buf, SPI_transfer, digitalWrite]
  rfl

@[simp] theorem read_register_payload_size (D : Device σ) (cs a : Nat) (st : State σ) :
    (read_register D cs a st).2.payload_size = st.payload_size := rfl

@[simp] theorem read_register_addr_width (D : Device σ) (cs a : Nat) (st : State σ) :
    (read_register D cs a st).2.addr_width = st.addr_width := rfl

@[simp] theorem read_register_uninit (D : Device σ) (cs a : Nat) (st : State σ) :
    (read_register D cs a st).2.uninit = st.uninit := rfl

@[simp] theorem write_register_payload_size (D : Device σ) (cs a v : Nat) (st : State σ) :
    (write_register D cs a v st).2.payload_size = st.payload_size := rfl

@[simp] theorem write_register_addr_width (D : Device σ) (cs a v : Nat) (st : State σ) :
    (write_register D cs a v st).2.addr_width = st.addr_width := rfl

@[simp] theorem write_register_uninit (D : Device σ) (cs a v : Nat) (st : State σ) :
    (write_register D cs a v st).2.uninit = st.uninit := rfl

/-- Setting PRIM_RX, storing the byte, reading it back and clearing PRIM_RX gives
the original byte with bit 0 cleared. -/
theorem set_then_clear_prim_rx (c : Nat) (hc : c < 256) :
    (((c % 256 ||| bit PRIM_RX) % 256) % 256 &&& compl32 (bit PRIM_RX)) % 256 = c &&& 0xFE := by
  interval_cases c <;> rfl

/-- Clearing bit 0 of a byte with `& 0xFE` keeps every other bit. -/
theorem testBit_land_fe (c i : Nat) (hc : c < 256) :
    (c &&& 0xFE).testBit i = (decide (i ≠ 0) && c.testBit i) := by
  rw [Nat.testBit_and]
  by_cases hi : i < 8
  · interval_cases i <;> simp <;> intro _ <;> decide
  · have h1 : c.testBit i = false := by
      apply Nat.testBit_lt_two_pow
      calc c < 2 ^ 8 := hc
        _ ≤ 2 ^ i := Nat.pow_le_pow_right (by norm_num) (by omega)
    simp [h1]

/-- The log of `openReadingPipe` on any device: the address transaction with
`addr_width` data bytes, the read and the write of EN_RXADDR, the write of the
payload size. -/
theorem openReadingPipe_log (D : Device σ) (cs num : Nat) (addr : List Nat)
    (st : State σ) :
    ∃ (s0 : Nat) (rs : List Nat) (s1 v s2 r2 s3 r3 : Nat),
      rs.length = (addr.take (st.addr_width % 256)).length ∧
      (openReadingPipe D cs num addr st).log = st.log ++
        (frame cs ((W_REGISTER ||| (RX_ADDR_P0 + num % 256)) % 256) s0
            (addr.take (st.addr_width % 256)) rs ++
         frame cs 2 s1 [st.uninit] [v] ++
         frame cs 34 s2 [(v ||| bit (num % 256)) % 256] [r2] ++
         frame cs ((W_REGISTER ||| (RX_PW_P0 + num % 256) % 256) % 256) s3
            [st.payload_size % 256] [r3]) := by
  obtain ⟨xa, ha⟩ : ∃ x, x =
    spi D cs (W_REGISTER ||| (RX_ADDR_P0 + num % 256)) addr st.addr_width st := ⟨_, rfl⟩
  obtain ⟨xb, hb⟩ : ∃ x, x = read_register D cs EN_RXADDR xa.2 := ⟨_, rfl⟩
  obtain ⟨xc, hc⟩ : ∃ x, x =
    write_register D cs EN_RXADDR (xb.1 ||| bit (num % 256)) xb.2 := ⟨_, rfl⟩
  obtain ⟨xd, hd⟩ : ∃ x, x =
    write_register D cs (RX_PW_P0 + num % 256) xc.2.payload_size xc.2 := ⟨_, rfl⟩
  have hfin : openReadingPipe D cs num addr st = xd.2 := by
    subst hd hc hb ha
    rfl
  obtain ⟨⟨rs, hrs, h0⟩, hp, _, hu⟩ :=
    spi_log D cs (W_REGISTER ||| (RX_ADDR_P0 + num % 256)) addr st.addr_width st
  obtain ⟨s1, h1⟩ := read_register_log D cs EN_RXADDR xa.2
  obtain ⟨r2, h2⟩ := write_register_log D cs EN_RXADDR (xb.1 ||| bit (num % 256)) xb.2
  obtain ⟨r3, h3⟩ := write_register_log D cs (RX_PW_P0 + num % 256) xc.2.payload_size xc.2
  rw [← ha] at h0 hp hu
  rw [← hb] at h1
  rw [← hc] at h2
  rw [← hd] at h3
  have hp2 : xc.2.payload_size = st.payload_size := by
    rw [hc, write_register_payload_size, hb, read_register_payload_size, hp]
  refine ⟨xa.1, rs, s1, xb.1, xc.1, r2, xd.1, r3, hrs, ?_⟩
  rw [hfin, h3, h2, h1, h0, hu, hp2]
  simp only [frame, List.append_assoc, List.zipWith_cons_cons,
    List.zipWith_nil_right, List.cons_append, List.nil_append]
  rfl

/-- The log of `openWritingPipe` on any device: the same `addr_width` bytes of the
address go first to TX_ADDR (command `0x30`) and then to RX_ADDR_P0 (command `0x2A`),
then bit 0 is set in EN_RXADDR and the payload size goes to RX_PW_P0. -/
theorem openWritingPipe_log (D : Device σ) (cs : Nat) (addr : List Nat) (st : State σ) :
    ∃ (s : Nat) (rs : List Nat) (s0 : Nat) (rs0 : List Nat) (s1 v s2 r2 s3 r3 : Nat),
      rs.length = (addr.take (st.addr_width % 256)).length ∧
      rs0.length = (addr.take (st.addr_width % 256)).length ∧
      (openWritingPipe D cs addr st).log = st.log ++
        (frame cs 0x30 s (addr.take (st.addr_width % 256)) rs ++
         frame cs 0x2A s0 (addr.take (st.addr_width % 256)) rs0 ++
         frame cs 0x02 s1 [st.uninit] [v] ++
         frame cs 0x22 s2 [(v ||| 1) % 256] [r2] ++
         frame cs 0x31 s3 [st.payload_size % 256] [r3]) := by
  obtain ⟨⟨rs, hrs, h0⟩, hp, hw, hu⟩ :=
    spi_log D cs (W_REGISTER ||| TX_ADDR) addr st.addr_width st
  obtain ⟨s0, rs0, s1, v, s2, r2, s3, r3, hrs0, hlog⟩ :=
    openReadingPipe_log D cs 0 addr (spi D cs (W_REGISTER ||| TX_ADDR) addr st.addr_width st).2
  rw [hw] at hrs0
  rw [hw, hu, hp, h0] at hlog
  refine ⟨(spi D cs (W_REGISTER ||| TX_ADDR) addr st.addr_width st).1, rs, s0, rs0, s1, v,
    s2, r2, s3, r3, hrs, hrs0, ?_⟩
  simp only [openWritingPipe, hlog, frame, List.append_assoc]
  rfl

/-- The log of `write_register` as one `frame`. -/
theorem write_register_frame (D : Device σ) (cs a v : Nat) (st : State σ) :
    ∃ r, (write_register D cs a v st).2.log = st.log ++
      frame cs ((W_REGISTER ||| a % 256) % 256) (write_register D cs a v st).1 [v % 256] [r] := by
  obtain ⟨r, h⟩ := write_register_log D cs a v st
  exact ⟨r, h⟩

/-- The log of `read_register` as one `frame`. -/
theorem read_register_frame (D : Device σ) (cs a : Nat) (st : State σ) :
    ∃ s, (read_register D cs a st).2.log = st.log ++
      frame cs ((R_REGISTER ||| a % 256) % 256) s [st.uninit] [(read_register D cs a st).1] := by
  obtain ⟨s, h⟩ := read_register_log D cs a st
  exact ⟨s, h⟩

/-- A byte received from the bus is below 256. -/
theorem read_register_lt (D : Device σ) (cs a : Nat) (st : State σ) :
    (read_register D cs a st).1 < 256 := by
  simp only [read_register, spi_buf, SPI_transfer_buf, SPI_transfer, List.take,
    List.headD_cons]
  exact Nat.mod_lt _ (by decide)

/-- The log of `begin` on any device. -/
theorem begin_log (D : Device σ) (ce cs : Nat) (st : State σ) :
    ∃ s1 r1 s2 r2 s3 r3 : Nat, (begin D ce cs st).log = st.log ++
      ([Event.spiBegin, Event.pinMode ce, Event.pinMode cs,
        Event.digitalWrite ce false, Event.digitalWrite cs true,
        Event.delayMicroseconds 5000] ++
       frame cs 0x27 s1 [0x70] [r1] ++
       frame cs 0x24 s2 [0x3F] [r2] ++
       frame cs 0x20 s3 [0x0A] [r3] ++
       [Event.delayMicroseconds 1500]) := by
  obtain ⟨x6, h6⟩ : ∃ x, x = delayMicroseconds D 5000 (digitalWrite D cs true
    (digitalWrite D ce false (pinMode cs (pinMode ce (SPI_begin st))))) := ⟨_, rfl⟩
  obtain ⟨x7, h7⟩ : ∃ x, x =
    write_register D cs NRF_STATUS (bit RX_DR ||| bit TX_DS ||| bit MAX_RT) x6 := ⟨_, rfl⟩
  obtain ⟨x8, h8⟩ : ∃ x, x = write_register D cs SETUP_RETR 0x3f x7.2 := ⟨_, rfl⟩
  obtain ⟨x9, h9⟩ : ∃ x, x = write_register D cs CONFIG 0b1010 x8.2 := ⟨_, rfl⟩
  have hfin : begin D ce cs st = delayMicroseconds D 1500 x9.2 := by
    subst h9 h8 h7 h6
    rfl
  obtain ⟨r1, e1⟩ := write_register_frame D cs NRF_STATUS
    (bit RX_DR ||| bit TX_DS ||| bit MAX_RT) x6
  obtain ⟨r2, e2⟩ := write_register_frame D cs SETUP_RETR 0x3f x7.2
  obtain ⟨r3, e3⟩ := write_register_frame D cs CONFIG 0b1010 x8.2
  rw [← h7] at e1
  rw [← h8] at e2
  rw [← h9] at e3
  have e0 : x6.log = st.log ++ [Event.spiBegin, Event.pinMode ce, Event.pinMode cs,
      Event.digitalWrite ce false, Event.digitalWrite cs true,
      Event.delayMicroseconds 5000] := by
    subst h6
    simp [SPI_begin, pinMode]
  refine ⟨x7.1, r1, x8.1, r2, x9.1, r3, ?_⟩
  rw [hfin, delayMicroseconds_log, e3, e2, e1, e0]
  simp only [List.append_assoc]
  rfl

/-- The registers `begin` leaves on the simulated chip. -/
theorem sim_begin_regs (ce cs : Nat) (st : State SimChip) :
    (begin (simChip cs) ce cs st).chip.regs =
      simStore (simStore (simStore st.chip.regs NRF_STATUS 0 0x70) SETUP_RETR 0 0x3F)
        CONFIG 0 0x0A := by
  have h70 : bit RX_DR ||| bit TX_DS ||| bit MAX_RT = 0x70 := by decide
  simp only [begin, h70, sim_write_register cs NRF_STATUS _ (by decide),
    sim_write_register cs SETUP_RETR _ (by decide),
    sim_write_register cs CONFIG _ (by decide), simAfter_regs, sim_delayMicroseconds_chip,
    sim_digitalWrite_regs]
  rfl

/-- The log of a read-modify-write of a register on any device: the read of the
register, then the write of `f` applied to the byte that was read. -/
theorem rmw_log (D : Device σ) (cs a : Nat) (f : Nat → Nat) (st : State σ) :
    ∃ s1 v s2 r2 : Nat, v < 256 ∧
      (write_register D cs a (f (read_register D cs a st).1)
        (read_register D cs a st).2).2.log = st.log ++
        (frame cs ((R_REGISTER ||| a % 256) % 256) s1 [st.uninit] [v] ++
         frame cs ((W_REGISTER ||| a % 256) % 256) s2 [f v % 256] [r2]) := by
  obtain ⟨s1, h1⟩ := read_register_frame D cs a st
  obtain ⟨r2, h2⟩ := write_register_frame D cs a (f (read_register D cs a st).1)
    (read_register D cs a st).2
  refine ⟨s1, (read_register D cs a st).1,
    (write_register D cs a (f (read_register D cs a st).1) (read_register D cs a st).2).1,
    r2, read_register_lt D cs a st, ?_⟩
  rw [h2, h1, List.append_assoc]

/-- Replacing a field of a byte: with `m` the mask that keeps the other bits and `f`
the field, the bits of `(r & m) | e` are those of `e` inside the field and those of
`r` outside. -/
theorem testBit_field_update (r m f e i : Nat) (hr : r < 256) (he : e < 256)
    (hem : e &&& m = 0) (hmf : m ^^^ f = 0xFF) :
    ((r &&& m) ||| e).testBit i = if f.testBit i = true then e.testBit i else r.testBit i := by
  rw [Nat.testBit_or, Nat.testBit_and]
  by_cases hi : i < 8
  · have h1 : (m ^^^ f).testBit i = true := by
      rw [hmf]
      interval_cases i <;> decide
    have h2 : (e &&& m).testBit i = false := by rw [hem]; simp
    rw [Nat.testBit_xor] at h1
    rw [Nat.testBit_and] at h2
    cases hm : m.testBit i <;> cases hf : f.testBit i <;> cases hE : e.testBit i <;>
      simp_all
  · have hp : 2 ^ 8 ≤ 2 ^ i := Nat.pow_le_pow_right (by norm_num) (by omega)
    have h1 : r.testBit i = false := Nat.testBit_lt_two_pow (Nat.lt_of_lt_of_le hr hp)
    have h2 : e.testBit i = false := Nat.testBit_lt_two_pow (Nat.lt_of_lt_of_le he hp)
    simp [h1, h2]

/-- The byte `(r & m) | e` fits a byte when `m` and `e` do. -/
theorem field_update_lt (r m e : Nat) (hm : m < 256) (he : e < 256) :
    ((r &&& m) ||| e) % 256 = (r &&& m) ||| e :=
  Nat.mod_eq_of_lt (@Nat.or_lt_two_pow _ _ 8 (@Nat.and_lt_two_pow r m 8 hm) he)

/-- A read-modify-write of a register other than STATUS on the simulated chip leaves
`f` of the prior byte in the register. -/
theorem sim_rmw_regs (cs a : Nat) (ha : a < 32) (hs : a ≠ NRF_STATUS) (f : Nat → Nat)
    (st : State SimChip) :
    (write_register (simChip cs) cs a (f (read_register (simChip cs) cs a st).1)
      (read_register (simChip cs) cs a st).2).2.chip.regs a 0 =
      f (st.chip.regs a 0 % 256) % 256 := by
  rw [sim_read_register cs a ha, sim_write_register cs a _ ha]
  simp only [simAfter_regs]
  rw [simStore_same _ _ _ _ hs]

/-- The macro `bit` is a power of two for a shift below 32. -/
theorem bit_eq_two_pow (p : Nat) (hp : p < 32) : bit p = 2 ^ p := by
  simp only [bit, Nat.shiftLeft_eq, Nat.one_mul]
  exact Nat.mod_eq_of_lt (Nat.pow_lt_pow_right (by norm_num) hp)

/-- The bits of `~bit(p)`: all of the low 32 except bit `p`. -/
theorem testBit_compl32_bit (p i : Nat) (hp : p < 32) :
    (compl32 (bit p)).testBit i = (decide (i < 32) && !decide (p = i)) := by
  have h1 : (2 : Nat) ^ p < 2 ^ 32 := Nat.pow_lt_pow_right (by norm_num) hp
  have h2 : compl32 (bit p) = 2 ^ 32 - (2 ^ p + 1) := by
    rw [bit_eq_two_pow p hp]
    simp only [compl32, Nat.mod_eq_of_lt h1]
    omega
  rw [h2, Nat.testBit_two_pow_sub_succ h1, Nat.testBit_two_pow]

/-- Setting bit `p` of a byte with `|= bit(p)` sets that bit and keeps the others. -/
theorem testBit_set_bit (v p i : Nat) (hv : v < 256) (hp : p < 8) :
    ((v ||| bit p) % 256 % 256).testBit i = if i = p then true else v.testBit i := by
  have h256 : (256 : Nat) = 2 ^ 8 := by norm_num
  rw [Nat.mod_mod, bit_eq_two_pow p (by omega), h256, Nat.testBit_mod_two_pow,
    Nat.testBit_or, Nat.testBit_two_pow]
  by_cases hi : i = p
  · subst hi
    simp [hp]
  · have hpi : ¬ p = i := fun h => hi h.symm
    by_cases h8 : i < 8
    · simp [hi, hpi, h8]
    · have hz : v.testBit i = false :=
        Nat.testBit_lt_two_pow (Nat.lt_of_lt_of_le (h256 ▸ hv)
          (Nat.pow_le_pow_right (by norm_num) (by omega)))
      simp [hi, hz, h8]

/-- Clearing bit `p` of a byte with `&= ~bit(p)` clears that bit and keeps the
others. -/
theorem testBit_clear_bit (v p i : Nat) (hv : v < 256) (hp : p < 8) :
    ((v &&& compl32 (bit p)) % 256 % 256).testBit i =
      if i = p then false else v.testBit i := by
  have h256 : (256 : Nat) = 2 ^ 8 := by norm_num
  rw [Nat.mod_mod, h256, Nat.testBit_mod_two_pow, Nat.testBit_and,
    testBit_compl32_bit p i (by omega)]
  by_cases hi : i = p
  · subst hi
    simp
  · have hpi : ¬ p = i := fun h => hi h.symm
    by_cases h8 : i < 8
    · have h32 : i < 32 := by omega
      simp [hi, hpi, h8, h32]
    · have hz : v.testBit i = false :=
        Nat.testBit_lt_two_pow (Nat.lt_of_lt_of_le (h256 ▸ hv)
          (Nat.pow_le_pow_right (by norm_num) (by omega)))
      simp [hi, hz, h8]

/-- The in-place `spi` on any device: the log grows by one transaction that sends
the first `len` bytes of the buffer, and those bytes are replaced in the buffer by the
bytes received for them. -/
theorem spi_buf_log (D : Device σ) (cs cmd : Nat) (buf : List Nat) (len : Nat)
    (st : State σ) :
    ∃ rs : List Nat, rs.length = (buf.take (len % 256)).length ∧
      (spi_buf D cs cmd buf len st).2.2.log = st.log ++
        frame cs (cmd % 256) (spi_buf D cs cmd buf len st).1 (buf.take (len % 256)) rs ∧
      (spi_buf D cs cmd buf len st).2.1 = rs ++ buf.drop (len % 256) := by
  obtain ⟨h1, h2, _, _, _⟩ := SPI_transfer_buf_log D (buf.take (len % 256))
    (SPI_transfer D (cmd % 256) (digitalWrite D cs false st)).2
  refine ⟨(SPI_transfer_buf D (buf.take (len % 256))
    (SPI_transfer D (cmd % 256) (digitalWrite D cs false st)).2).1, h1, ?_, rfl⟩
  simp only [spi_buf, digitalWrite_log, h2, frame]
  simp [SPI_transfer]

/-- The const-buffer `spi` and the in-place `spi` return the same status byte and
leave the same state. -/
theorem spi_eq_spi_buf (D : Device σ) (cs cmd : Nat) (buf : List Nat) (len : Nat)
    (st : State σ) :
    spi D cs cmd buf len st =
      ((spi_buf D cs cmd buf len st).1, (spi_buf D cs cmd buf len st).2.2) := by
  simp only [spi, spi_buf, List.take_take, min_self]

/-- The first `n` bytes after `memset` are the fill byte, the rest is as before. -/
theorem memset_take_drop (buf : List Nat) (c n : Nat) :
    (memset buf c n).take n = List.replicate n (c % 256) ∧
    (memset buf c n).drop n = buf.drop n := by
  simp [memset, List.take_append_eq_append_take, List.drop_append_eq_append_drop]

/-- The log of one round of the polling loop: the wait and the NOP transaction. -/
theorem pollRound_log (D : Device σ) (cs : Nat) (st : State σ) :
    (pollRound D cs st).2.log = st.log ++
      (Event.delayMicroseconds 200 :: frame cs 0xFF (pollRound D cs st).1 [] []) := by
  simp [pollRound, status, spi, spi_buf, SPI_transfer_buf, SPI_transfer, frame, NOP,
    digitalWrite, delayMicroseconds]

/-- The status byte of round `k + 2` is that of round `k + 1` counted from the state
after the first round. -/
theorem pollByte_succ (D : Device σ) (cs k : Nat) (st : State σ) :
    pollByte D cs (k + 1) st = pollByte D cs k (pollRound D cs st).2 := rfl

/-- The log after `k` rounds of the polling loop. -/
theorem pollState_log (D : Device σ) (cs : Nat) (k : Nat) :
    ∀ st : State σ, (pollState D cs k st).log = st.log ++ pollEvents D cs k st := by
  induction k with
  | zero => intro st; simp [pollState, pollEvents]
  | succ k ih =>
    intro st
    simp only [pollState, ih, pollRound_log, pollEvents, List.range_succ_eq_map,
      List.flatMap_cons, List.flatMap_map, List.append_assoc]
    rfl

/-- The polling loop stops in round `k + 1` when that is the first round whose status
byte has TX_DS or MAX_RT set, whatever fuel above `k` it is given. -/
theorem write_wait_some (D : Device σ) (cs : Nat) (k : Nat) :
    ∀ (st : State σ) (fuel : Nat),
      (∀ j, j < k → pollByte D cs j st &&& (bit TX_DS ||| bit MAX_RT) = 0) →
      pollByte D cs k st &&& (bit TX_DS ||| bit MAX_RT) ≠ 0 →
      k < fuel → write_wait D cs fuel st = some (pollState D cs (k + 1) st) := by
  induction k with
  | zero =>
    intro st fuel _ hset hf
    obtain ⟨f, rfl⟩ : ∃ f, fuel = f + 1 := ⟨fuel - 1, by omega⟩
    have h : (status D cs (delayMicroseconds D 200 st)).1 &&&
        (bit TX_DS ||| bit MAX_RT) ≠ 0 := hset
    simp only [write_wait, h, ne_eq, not_false_eq_true, if_true]
    rfl
  | succ k ih =>
    intro st fuel hclear hset hf
    obtain ⟨f, rfl⟩ : ∃ f, fuel = f + 1 := ⟨fuel - 1, by omega⟩
    have h0 : (status D cs (delayMicroseconds D 200 st)).1 &&&
        (bit TX_DS ||| bit MAX_RT) = 0 := hclear 0 (by omega)
    simp only [write_wait, h0, ne_eq, not_true_eq_false, if_false]
    exact ih (pollRound D cs st).2 f
      (fun j hj => hclear (j + 1) (by omega)) hset (by omega)

/-- The polling loop runs out of fuel when no round within the fuel has TX_DS or
MAX_RT set. -/
theorem write_wait_none (D : Device σ) (cs : Nat) (fuel : Nat) :
    ∀ st : State σ,
      (∀ j, j < fuel → pollByte D cs j st &&& (bit TX_DS ||| bit MAX_RT) = 0) →
      write_wait D cs fuel st = none := by
  induction fuel with
  | zero => intro st _; rfl
  | succ f ih =>
    intro st hclear
    have h0 : (status D cs (delayMicroseconds D 200 st)).1 &&&
        (bit TX_DS ||| bit MAX_RT) = 0 := hclear 0 (by omega)
    simp only [write_wait, h0, ne_eq, not_true_eq_false, if_false]
    exact ih (pollRound D cs st).2 (fun j hj => hclear (j + 1) (by omega))

/-- The log up to the polling loop of `write`: FLUSH_TX, W_TX_PAYLOAD with the first
`len` bytes of the buffer, and the pulse on chip-enable. -/
theorem writeStart_log (D : Device σ) (ce cs : Nat) (buf : List Nat) (len : Nat)
    (st : State σ) :
    ∃ (s0 s1 : Nat) (rs : List Nat), rs.length = (buf.take (len % 256)).length ∧
      (writeStart D ce cs buf len st).log = st.log ++
        (frame cs FLUSH_TX s0 [] [] ++
         frame cs W_TX_PAYLOAD s1 (buf.take (len % 256)) rs ++
         [Event.digitalWrite ce true, Event.delayMicroseconds 10,
          Event.digitalWrite ce false]) := by
  obtain ⟨⟨rs0, hrs0, h0⟩, _, _, _⟩ := spi_log D cs FLUSH_TX [] 0 st
  obtain ⟨⟨rs, hrs, h1⟩, _, _, _⟩ :=
    spi_log D cs W_TX_PAYLOAD buf len (spi D cs FLUSH_TX [] 0 st).2
  have hnil : rs0 = [] := by
    apply List.eq_nil_of_length_eq_zero
    rw [hrs0]
    rfl
  subst hnil
  refine ⟨(spi D cs FLUSH_TX [] 0 st).1,
    (spi D cs W_TX_PAYLOAD buf len (spi D cs FLUSH_TX [] 0 st).2).1, rs, hrs, ?_⟩
  simp only [writeStart, digitalWrite_log, delayMicroseconds_log, h1, h0, frame,
    List.append_assoc]
  rfl

/-! ## Lemmas on memory -/

/-- Loading `n` bytes gives `n` bytes. -/
theorem load_length (mem : Nat → Nat) (p n : Nat) : (load mem p n).length = n := by
  simp [load]

/-- Loading one more byte: the byte at the pointer, then the rest. -/
theorem load_succ (mem : Nat → Nat) (p n : Nat) :
    load mem p (n + 1) = mem p :: load mem (p + 1) n := by
  simp only [load, List.range_succ_eq_map, List.map_cons, List.map_map, Nat.add_zero]
  congr 1
  apply List.map_congr_left
  intro i _
  simp only [Function.comp]
  congr 1
  omega

/-- Two memories that agree on a region load the same bytes from it. -/
theorem load_congr (m1 m2 : Nat → Nat) (p n : Nat)
    (h : ∀ i, i < n → m1 (p + i) = m2 (p + i)) : load m1 p n = load m2 p n := by
  simp only [load]
  apply List.map_congr_left
  intro i hi
  exact h i (List.mem_range.1 hi)

/-- The byte `i` of a loaded region. -/
theorem load_getD (mem : Nat → Nat) (p n i : Nat) (hi : i < n) :
    (load mem p n).getD i 0 = mem (p + i) := by
  have h : i < (load mem p n).length := by rw [load_length]; exact hi
  rw [List.getD_eq_getElem _ _ h]
  simp [load]

/-- The exchange on memory does what the exchange on the list of the loaded bytes
does: the same state, and in memory the region holds the bytes received while every
other address is as before. -/
theorem SPI_transfer_mem_eq (D : Device σ) (n : Nat) :
    ∀ (mem : Nat → Nat) (p : Nat) (st : State σ),
      (SPI_transfer_mem D mem p n st).2 = (SPI_transfer_buf D (load mem p n) st).2 ∧
      ∀ a, (SPI_transfer_mem D mem p n st).1 a =
        if p ≤ a ∧ a < p + n then (SPI_transfer_buf D (load mem p n) st).1.getD (a - p) 0
        else mem a := by
  induction n with
  | zero =>
    intro mem p st
    refine ⟨rfl, fun a => ?_⟩
    have h : ¬ (p ≤ a ∧ a < p + 0) := by omega
    rw [if_neg h]
    rfl
  | succ n ih =>
    intro mem p st
    have hl : load (fun a => if a = p then (SPI_transfer D (mem p) st).1 else mem a)
        (p + 1) n = load mem (p + 1) n := by
      apply load_congr
      intro i _
      have : ¬ (p + 1 + i = p) := by omega
      simp only [this, if_false]
    obtain ⟨h1, h2⟩ := ih (fun a => if a = p then (SPI_transfer D (mem p) st).1 else mem a)
      (p + 1) (SPI_transfer D (mem p) st).2
    rw [hl] at h1 h2
    refine ⟨?_, fun a => ?_⟩
    · simp only [SPI_transfer_mem, load_succ, SPI_transfer_buf, h1]
    · simp only [SPI_transfer_mem, load_succ, SPI_transfer_buf, h2]
      by_cases ha : a = p
      · subst ha
        have c1 : ¬ (a + 1 ≤ a ∧ a < a + 1 + n) := by omega
        have c2 : a ≤ a ∧ a < a + (n + 1) := by omega
        rw [if_neg c1, if_pos c2, Nat.sub_self]
        simp
      · by_cases hin : p + 1 ≤ a ∧ a < p + 1 + n
        · have c2 : p ≤ a ∧ a < p + (n + 1) := by omega
          have c3 : a - p = (a - (p + 1)) + 1 := by omega
          rw [if_pos hin, if_pos c2, c3, List.getD_cons_succ]
        · have c2 : ¬ (p ≤ a ∧ a < p + (n + 1)) := by omega
          rw [if_neg hin, if_neg c2]
          simp only [ha, if_false]

/-- The in-place `spi` on memory does what the in-place `spi` on the list of the loaded
bytes does: the same status byte and state, and in memory the first `len` bytes at the
pointer are replaced by the bytes received while every other address is as before. -/
theorem spi_buf_mem_eq (D : Device σ) (cs cmd : Nat) (mem : Nat → Nat) (p len : Nat)
    (st : State σ) :
    (spi_buf_mem D cs cmd mem p len st).1 =
      (spi_buf D cs cmd (load mem p (len % 256)) len st).1 ∧
    (spi_buf_mem D cs cmd mem p len st).2.2 =
      (spi_buf D cs cmd (load mem p (len % 256)) len st).2.2 ∧
    ∀ a, (spi_buf_mem D cs cmd mem p len st).2.1 a =
      if p ≤ a ∧ a < p + len % 256 then
        (spi_buf D cs cmd (load mem p (len % 256)) len st).2.1.getD (a - p) 0
      else mem a := by
  have ht : (load mem p (len % 256)).take (len % 256) = load mem p (len % 256) :=
    List.take_of_length_le (by rw [load_length])
  have hd : (load mem p (len % 256)).drop (len % 256) = [] :=
    List.drop_eq_nil_of_le (by rw [load_length])
  obtain ⟨h1, h2⟩ := SPI_transfer_mem_eq D (len % 256) mem p
    (SPI_transfer D (cmd % 256) (digitalWrite D cs false st)).2
  refine ⟨rfl, ?_, fun a => ?_⟩
  · simp only [spi_buf_mem, spi_buf, ht, h1]
  · simp only [spi_buf_mem, spi_buf, ht, hd, List.append_nil, h2]

/-- The copy made by the const-buffer `spi` is `memcpy` whatever the length: with no
byte to copy `memcpy` changes nothing. -/
theorem memcpy_if (mem : Nat → Nat) (dst src n : Nat) :
    (if n ≠ 0 then memcpy mem dst src n else mem) = memcpy mem dst src n := by
  by_cases h : n = 0
  · subst h
    funext a
    have c : ¬ (dst ≤ a ∧ a < dst + 0) := by omega
    simp only [memcpy, ne_eq, not_true_eq_false, if_false, if_neg c]
  · simp [h]

/-- The const-buffer `spi` on memory does what the in-place `spi` on the list of the
first `len` bytes of the caller's buffer does: the same status byte and state; in
memory the local array holds the bytes received while every other address is as
before. -/
theorem spi_mem_eq (D : Device σ) (cs cmd : Nat) (mem : Nat → Nat) (buf len tmp : Nat)
    (st : State σ) :
    (spi_mem D cs cmd mem buf len tmp st).1 =
      (spi_buf D cs cmd (load mem buf (len % 256)) len st).1 ∧
    (spi_mem D cs cmd mem buf len tmp st).2.2 =
      (spi_buf D cs cmd (load mem buf (len % 256)) len st).2.2 ∧
    ∀ a, (spi_mem D cs cmd mem buf len tmp st).2.1 a =
      if tmp ≤ a ∧ a < tmp + len % 256 then
        (spi_buf D cs cmd (load mem buf (len % 256)) len st).2.1.getD (a - tmp) 0
      else mem a := by
  have hl : load (memcpy mem tmp buf (len % 256)) tmp (len % 256) =
      load mem buf (len % 256) := by
    simp only [load]
    apply List.map_congr_left
    intro i hi
    have hi2 : i < len % 256 := List.mem_range.1 hi
    have c : tmp ≤ tmp + i ∧ tmp + i < tmp + len % 256 := by omega
    simp only [memcpy, c, and_self, if_true, Nat.add_sub_cancel_left]
  obtain ⟨h1, h2, h3⟩ := spi_buf_mem_eq D cs cmd (memcpy mem tmp buf (len % 256)) tmp len st
  rw [hl] at h1 h2 h3
  simp only [spi_mem, memcpy_if]
  refine ⟨h1, h2, fun a => ?_⟩
  rw [h3 a]
  by_cases c : tmp ≤ a ∧ a < tmp + len % 256
  · rw [if_pos c, if_pos c]
  · rw [if_neg c, if_neg c]
    simp only [memcpy, c, if_false]

/-- A region of memory that holds the bytes of a list loads as that list. -/
theorem load_eq_of_getD (m : Nat → Nat) (p : Nat) (l : List Nat)
    (h : ∀ i, i < l.length → m (p + i) = l.getD i 0) : load m p l.length = l := by
  apply List.ext_getElem
  · rw [load_length]
  · intro i h1 h2
    have e := load_getD m p l.length i h2
    rw [List.getD_eq_getElem _ _ h1] at e
    rw [e, h i h2, List.getD_eq_getElem _ _ h2]

/-- The bytes the in-place `spi` leaves in the buffer when it is given exactly the
bytes it exchanges: as many as it was given. -/
theorem spi_buf_load_length (D : Device σ) (cs cmd : Nat) (mem : Nat → Nat) (p len : Nat)
    (st : State σ) :
    (spi_buf D cs cmd (load mem p (len % 256)) len st).2.1.length = len % 256 := by
  obtain ⟨rs, h1, _, h3⟩ := spi_buf_log D cs cmd (load mem p (len % 256)) len st
  have hd : (load mem p (len % 256)).drop (len % 256) = [] :=
    List.drop_eq_nil_of_le (by rw [load_length])
  rw [h3, hd, List.append_nil, h1, List.length_take, load_length, Nat.min_self]

/-- The method `openReadingPipe` on memory leaves the state that `openReadingPipe` on
the list of the address bytes leaves, and changes memory only in its local array. -/
theorem openReadingPipe_mem_eq (D : Device σ) (cs num : Nat) (mem : Nat → Nat)
    (addr tmp : Nat) (st : State σ) :
    (openReadingPipe_mem D cs num mem addr tmp st).2 =
      openReadingPipe D cs num (load mem addr (st.addr_width % 256)) st ∧
    ∀ a, ¬ (tmp ≤ a ∧ a < tmp + st.addr_width % 256) →
      (openReadingPipe_mem D cs num mem addr tmp st).1 a = mem a := by
  obtain ⟨_, h2, h3⟩ := spi_mem_eq D cs (W_REGISTER ||| (RX_ADDR_P0 + num % 256)) mem addr
    st.addr_width tmp st
  refine ⟨?_, fun a ha => ?_⟩
  · simp only [openReadingPipe_mem, openReadingPipe, h2, spi_eq_spi_buf]
  · simp only [openReadingPipe_mem]
    rw [h3 a, if_neg ha]

/-- The method `openWritingPipe` on memory, its first local array not overlapping the
address: it leaves the state that `openWritingPipe` on the list of the address bytes
leaves, and changes memory only in its two local arrays. -/
theorem openWritingPipe_mem_eq (D : Device σ) (cs : Nat) (mem : Nat → Nat)
    (addr tmp1 tmp2 : Nat) (st : State σ)
    (h1 : ∀ i, i < st.addr_width % 256 →
      ¬ (tmp1 ≤ addr + i ∧ addr + i < tmp1 + st.addr_width % 256)) :
    (openWritingPipe_mem D cs mem addr tmp1 tmp2 st).2 =
      openWritingPipe D cs (load mem addr (st.addr_width % 256)) st ∧
    ∀ a, ¬ (tmp1 ≤ a ∧ a < tmp1 + st.addr_width % 256) →
      ¬ (tmp2 ≤ a ∧ a < tmp2 + st.addr_width % 256) →
      (openWritingPipe_mem D cs mem addr tmp1 tmp2 st).1 a = mem a := by
  obtain ⟨_, e2, e3⟩ := spi_mem_eq D cs (W_REGISTER ||| TX_ADDR) mem addr st.addr_width tmp1 st
  obtain ⟨_, _, hw, _⟩ := spi_log D cs (W_REGISTER ||| TX_ADDR)
    (load mem addr (st.addr_width % 256)) st.addr_width st
  rw [spi_eq_spi_buf] at hw
  simp only at hw
  have hw2 : (spi_mem D cs (W_REGISTER ||| TX_ADDR) mem addr st.addr_width tmp1 st).2.2.addr_width
      = st.addr_width := by rw [e2]; exact hw
  have hl : load (spi_mem D cs (W_REGISTER ||| TX_ADDR) mem addr st.addr_width tmp1 st).2.1
      addr (st.addr_width % 256) = load mem addr (st.addr_width % 256) := by
    apply load_congr
    intro i hi
    rw [e3, if_neg (h1 i hi)]
  obtain ⟨g1, g2⟩ := openReadingPipe_mem_eq D cs 0
    (spi_mem D cs (W_REGISTER ||| TX_ADDR) mem addr st.addr_width tmp1 st).2.1 addr tmp2
    (spi_mem D cs (W_REGISTER ||| TX_ADDR) mem addr st.addr_width tmp1 st).2.2
  rw [hw2] at g1 g2
  rw [hl] at g1
  refine ⟨?_, fun a ha1 ha2 => ?_⟩
  · have hu : (openWritingPipe_mem D cs mem addr tmp1 tmp2 st).2 =
        (openReadingPipe_mem D cs 0
          (spi_mem D cs (W_REGISTER ||| TX_ADDR) mem addr st.addr_width tmp1 st).2.1 addr tmp2
          (spi_mem D cs (W_REGISTER ||| TX_ADDR) mem addr st.addr_width tmp1 st).2.2).2 := rfl
    rw [hu, g1, e2]
    simp only [openWritingPipe, spi_eq_spi_buf]
  · have hu : (openWritingPipe_mem D cs mem addr tmp1 tmp2 st).1 =
        (openReadingPipe_mem D cs 0
          (spi_mem D cs (W_REGISTER ||| TX_ADDR) mem addr st.addr_width tmp1 st).2.1 addr tmp2
          (spi_mem D cs (W_REGISTER ||| TX_ADDR) mem addr st.addr_width tmp1 st).2.2).1 := rfl
    rw [hu, g2 a ha2, e3, if_neg ha1]

/-! ## Theorems -/

/-- The nested Arduino macros `max(lo, min(hi, x))` clamp `x` to `lo..hi`. -/
theorem amax_amin (lo hi x : Nat) (h : lo ≤ hi) :
    amax lo (amin hi x) = max lo (min x hi) := by
  simp only [amax, amin]
  split_ifs <;> omega

/-- C1: for every 8-bit value `s`, `setPayloadSize(s)` stores `clamp(s, 1, 32)` as
the payload size: 1 when `s = 0`, 32 when `s > 32`, and `s` otherwise. -/
theorem setPayloadSize_clamp (s : Nat) (hs : s < 256) (st : State σ) :
    (setPayloadSize s st).payload_size = max 1 (min s 32) ∧
    (setPayloadSize s st).payload_size = (if s = 0 then 1 else if s > 32 then 32 else s) := by
  simp only [setPayloadSize, Nat.mod_eq_of_lt hs, amax_amin 1 32 s (by decide)]
  constructor
  · omega
  · split_ifs <;> omega

/-- Witness of C1 at the sizes 0, 16, 32, 33 and 255. -/
theorem setPayloadSize_clamp_witness :
    (setPayloadSize 0 demo).payload_size = 1 ∧
    (setPayloadSize 16 demo).payload_size = 16 ∧
    (setPayloadSize 32 demo).payload_size = 32 ∧
    (setPayloadSize 33 demo).payload_size = 32 ∧
    (setPayloadSize 255 demo).payload_size = 32 :=
  ⟨(setPayloadSize_clamp 0 (by decide) demo).2,
   (setPayloadSize_clamp 16 (by decide) demo).2,
   (setPayloadSize_clamp 32 (by decide) demo).2,
   (setPayloadSize_clamp 33 (by decide) demo).2,
   (setPayloadSize_clamp 255 (by decide) demo).2⟩

/-- C2: for every 8-bit value `w`, `setAddressWidth(w)` stores `clamp(w, 3, 5)` as the
address width and issues exactly one bus transaction: chip-select low, the command
byte `0x23` (a register write to SETUP_AW), one data byte equal to the stored width
minus 2, chip-select high; that data byte is 1, 2 or 3. -/
theorem setAddressWidth_spec (D : Device σ) (cs w : Nat) (hw : w < 256) (st : State σ) :
    (setAddressWidth D cs w st).addr_width = max 3 (min w 5) ∧
    (∃ s r, (setAddressWidth D cs w st).log = st.log ++
      [Event.digitalWrite cs false, Event.transfer 0x23 s,
       Event.transfer ((setAddressWidth D cs w st).addr_width - 2) r,
       Event.digitalWrite cs true]) ∧
    ((setAddressWidth D cs w st).addr_width - 2 = 1 ∨
     (setAddressWidth D cs w st).addr_width - 2 = 2 ∨
     (setAddressWidth D cs w st).addr_width - 2 = 3) := by
  have hk : amax 3 (amin 5 w) % 256 = max 3 (min w 5) := by
    rw [amax_amin 3 5 w (by decide)]; omega
  have ha : (setAddressWidth D cs w st).addr_width = max 3 (min w 5) := by
    simp [setAddressWidth, write_register, spi_buf, digitalWrite, SPI_transfer,
      SPI_transfer_buf, Nat.mod_eq_of_lt hw, hk]
  refine ⟨ha, ?_, ?_⟩
  · rw [ha]
    have hm : (max 3 (min w 5) - 2) % 256 = max 3 (min w 5) - 2 := by omega
    apply Exists.intro
    apply Exists.intro
    simp [setAddressWidth, write_register, spi_buf, digitalWrite, SPI_transfer,
      SPI_transfer_buf, Nat.mod_eq_of_lt hw, hk, hm, SETUP_AW, W_REGISTER]
    exact ⟨rfl, rfl⟩
  · rw [ha]; omega

/-- Witness of C2 on the simulated chip at the width 7, which is clamped to 5. -/
theorem setAddressWidth_spec_witness :
    (setAddressWidth (simChip 10) 10 7 demo).addr_width = 5 ∧
    (setAddressWidth (simChip 10) 10 7 demo).log =
      [Event.digitalWrite 10 false, Event.transfer 0x23 0x1E, Event.transfer 3 0,
       Event.digitalWrite 10 true] :=
  ⟨(setAddressWidth_spec (simChip 10) 10 7 (by decide) demo).1, by decide⟩

/-- C3: on the simulated chip whose STATUS has MAX_RT set and TX_DS clear, `write`
returns false for every buffer and length after a single status poll that reports
that byte, its last transaction is the write of `0x30` to STATUS (command `0x27`),
and afterward TX_DS and MAX_RT are both clear. On every device, whenever `write`
returns, its last transaction is that write and the result is true exactly when
bit TX_DS is set in the status byte the device returned for it. -/
theorem write_result (ce cs : Nat) (buf : List Nat) (len fuel : Nat) (st : State SimChip)
    (hs : st.chip.regs NRF_STATUS 0 < 256)
    (hmax : (st.chip.regs NRF_STATUS 0).testBit MAX_RT = true)
    (hds : (st.chip.regs NRF_STATUS 0).testBit TX_DS = false) :
    (∃ st1, write (simChip cs) ce cs (fuel + 1) buf len st = some (false, st1) ∧
      st1.log = st.log ++
        [Event.digitalWrite cs false, Event.transfer 0xE1 (st.chip.regs NRF_STATUS 0),
         Event.digitalWrite cs true,
         Event.digitalWrite cs false, Event.transfer 0xA0 (st.chip.regs NRF_STATUS 0)] ++
        (buf.take (len % 256)).map (fun b => Event.transfer b 0) ++
        [Event.digitalWrite cs true,
         Event.digitalWrite ce true, Event.delayMicroseconds 10,
         Event.digitalWrite ce false, Event.delayMicroseconds 200,
         Event.digitalWrite cs false, Event.transfer 0xFF (st.chip.regs NRF_STATUS 0),
         Event.digitalWrite cs true,
         Event.digitalWrite cs false, Event.transfer 0x27 (st.chip.regs NRF_STATUS 0),
         Event.transfer 0x30 0, Event.digitalWrite cs true] ∧
      (st1.chip.regs NRF_STATUS 0).testBit TX_DS = false ∧
      (st1.chip.regs NRF_STATUS 0).testBit MAX_RT = false) ∧
    (∀ (τ : Type) (D : Device τ) (fuel0 : Nat) (st0 : State τ) (b : Bool) (st1 : State τ),
      write D ce cs fuel0 buf len st0 = some (b, st1) →
      ∃ pre s r, st1.log = pre ++
        [Event.digitalWrite cs false, Event.transfer 0x27 s, Event.transfer 0x30 r,
         Event.digitalWrite cs true] ∧
        (b = true ↔ s.testBit TX_DS = true)) := by
  constructor
  · have hm : st.chip.regs NRF_STATUS 0 % 256 = st.chip.regs NRF_STATUS 0 :=
      Nat.mod_eq_of_lt hs
    have hne : st.chip.regs NRF_STATUS 0 &&& 48 ≠ 0 :=
      land_ne_zero_of_testBit _ 48 MAX_RT hmax (by decide)
    have hbr : bitRead (st.chip.regs NRF_STATUS 0) TX_DS = 0 :=
      (bitRead_eq_zero_iff _ _).2 hds
    have hbit : bit TX_DS ||| bit MAX_RT = 48 := by decide
    have e1 := sim_spi_other cs 0xE1 (by decide) (by decide)
    have e2 := sim_spi_other cs 0xA0 (by decide) (by decide)
    have e3 := sim_write_register cs NRF_STATUS 48 (by decide)
    refine ⟨(write_register (simChip cs) cs NRF_STATUS 48
      (status (simChip cs) cs (delayMicroseconds (simChip cs) 200
        (digitalWrite (simChip cs) ce false (delayMicroseconds (simChip cs) 10
          (digitalWrite (simChip cs) ce true
            (spi (simChip cs) cs 0xA0 buf len
              (spi (simChip cs) cs 0xE1 [] 0 st).2).2))))).2).2, ?_, ?_, ?_, ?_⟩
    · simp only [write, write_wait, FLUSH_TX, W_TX_PAYLOAD, hbit]
      simp [e1, e2, e3, sim_status, hm, hne, hbr]
    · have h39 : 32 + NRF_STATUS = 39 := rfl
      simp only [e1, e2, e3, sim_status]
      simp [hm, h39]
    · simp [e1, e2, e3, sim_status, hm, simStore, Nat.testBit_and]
      intro _
      decide
    · simp [e1, e2, e3, sim_status, hm, simStore, Nat.testBit_and]
      intro _
      decide
  · intro τ D fuel0 st0 b st1 h
    simp only [write] at h
    split at h
    · exact absurd h (by simp)
    · rename_i st6 _
      simp only [Option.some.injEq, Prod.mk.injEq] at h
      obtain ⟨r, hr⟩ := write_register_log D cs NRF_STATUS (bit TX_DS ||| bit MAX_RT) st6
      refine ⟨st6.log, (write_register D cs NRF_STATUS (bit TX_DS ||| bit MAX_RT) st6).1,
        r, ?_, ?_⟩
      · rw [← h.2, hr]
        rfl
      · rw [← h.1]
        simp [bitRead_ne_zero_iff]

/-- Witness of C3: STATUS `0x1E` has MAX_RT set and TX_DS clear, and `write` of three
bytes returns false. -/
theorem write_result_witness :
    (demo.chip.regs NRF_STATUS 0).testBit MAX_RT = true ∧
    (demo.chip.regs NRF_STATUS 0).testBit TX_DS = false ∧
    (write (simChip 10) 9 10 1 [1, 2, 3] 3 demo).map Prod.fst = some false := by
  refine ⟨by decide, by decide, ?_⟩
  obtain ⟨st1, h, _⟩ :=
    (write_result 9 10 [1, 2, 3] 3 0 demo (by decide) (by decide) (by decide)).1
  rw [h]
  rfl

/-- C4: `available()` returns (bit RX_DR of the status byte `s` the chip returns) or
(bit RX_EMPTY clear in the FIFO_STATUS value `f` the chip returns): true when RX_DR
is 0 and RX_EMPTY is 0, false only when RX_DR is 0 and RX_EMPTY is 1. On the
simulated chip `s` and `f` range over all bytes. -/
theorem available_spec (D : Device σ) (cs : Nat) (st : State σ) :
    ((available D cs st).1 =
      ((status D cs st).1.testBit RX_DR ||
       !(read_register D cs FIFO_STATUS (status D cs st).2).1.testBit RX_EMPTY)) ∧
    ((available D cs st).1 = false ↔
      ((status D cs st).1.testBit RX_DR = false ∧
       (read_register D cs FIFO_STATUS (status D cs st).2).1.testBit RX_EMPTY = true)) ∧
    (∀ (s f : Nat) (sim : State SimChip), s < 256 → f < 256 →
      sim.chip.regs NRF_STATUS 0 = s → sim.chip.regs FIFO_STATUS 0 = f →
      (available (simChip cs) cs sim).1 = (s.testBit RX_DR || !f.testBit RX_EMPTY)) := by
  have key : ∀ (τ : Type) (E : Device τ) (x : State τ), (available E cs x).1 =
      ((status E cs x).1.testBit RX_DR ||
       !(read_register E cs FIFO_STATUS (status E cs x).2).1.testBit RX_EMPTY) := by
    intro τ E x
    simp only [available]
    split_ifs with h
    · rw [bitRead_ne_zero_iff] at h
      simp [h]
    · rw [bitRead_ne_zero_iff] at h
      simp only [Bool.not_eq_true] at h
      simp [h, bitRead_eq_zero_iff]
  refine ⟨key σ D st, ?_, ?_⟩
  · rw [key σ D st]
    simp
  · intro s f sim hs hf h1 h2
    rw [key SimChip (simChip cs) sim, sim_status, sim_read_register cs FIFO_STATUS (by decide)]
    simp [h1, h2, Nat.mod_eq_of_lt hs, Nat.mod_eq_of_lt hf]

/-- C5: with the address width at its default of 5, after `openWritingPipe(A)` on
the simulated chip the registers TX_ADDR and RX_ADDR_P0 both hold exactly the five
bytes of `A` in the same order, and bit 0 of EN_RXADDR is set. On every device the
five bytes of `A` are sent in order to TX_ADDR and then to RX_ADDR_P0, and the byte
written to EN_RXADDR is the byte read from it with bit 0 set. -/
theorem openWritingPipe_roundtrip (cs : Nat) (A : List Nat) (st : State SimChip)
    (hw : st.addr_width = 5) (hA : A.length = 5) :
    (List.range 5).map ((openWritingPipe (simChip cs) cs A st).chip.regs TX_ADDR) = A ∧
    (List.range 5).map ((openWritingPipe (simChip cs) cs A st).chip.regs RX_ADDR_P0) = A ∧
    ((openWritingPipe (simChip cs) cs A st).chip.regs EN_RXADDR 0).testBit 0 = true ∧
    (∀ (τ : Type) (D : Device τ) (x : State τ), x.addr_width = 5 →
      ∃ (s : Nat) (rs : List Nat) (s0 : Nat) (rs0 : List Nat) (s1 v s2 r2 s3 r3 : Nat),
        rs.length = 5 ∧ rs0.length = 5 ∧
        (openWritingPipe D cs A x).log = x.log ++
          (frame cs 0x30 s A rs ++ frame cs 0x2A s0 A rs0 ++
           frame cs 0x02 s1 [x.uninit] [v] ++
           frame cs 0x22 s2 [(v ||| 1) % 256] [r2] ++
           frame cs 0x31 s3 [x.payload_size % 256] [r3])) := by
  have hT : A.take (5 % 256) = A := List.take_of_length_le (by simp [hA])
  refine ⟨?_, ?_, ?_, ?_⟩
  rotate_left 3
  · intro τ D x hx
    obtain ⟨s, rs, s0, rs0, s1, v, s2, r2, s3, r3, h1, h2, h3⟩ :=
      openWritingPipe_log D cs A x
    rw [hx, hT] at h1 h2 h3
    rw [hA] at h1 h2
    exact ⟨s, rs, s0, rs0, s1, v, s2, r2, s3, r3, h1, h2, h3⟩
  all_goals
    rw [sim_openWritingPipe, sim_openReadingPipe_regs cs 0 (by decide)]
    simp only [simAfter_regs, simAfter_addr_width, simAfter_payload_size, hw, hT,
      Nat.add_zero]
  · have h : simStore (simStore
        (simWrite (simWrite st.chip.regs TX_ADDR 0 A) RX_ADDR_P0 0 A) EN_RXADDR 0
        ((simWrite (simWrite st.chip.regs TX_ADDR 0 A) RX_ADDR_P0 0 A EN_RXADDR 0 % 256
          ||| bit 0) % 256)) RX_PW_P0 0 (st.payload_size % 256) TX_ADDR =
        simWrite st.chip.regs TX_ADDR 0 A TX_ADDR := by
      funext i
      rw [simStore_other _ _ _ _ _ _ (by decide), simStore_other _ _ _ _ _ _ (by decide),
        simWrite_apply RX_ADDR_P0 (by decide), if_neg]
      intro h
      exact absurd h.1 (by decide)
    have h5 := simWrite_readback TX_ADDR (by decide) A st.chip.regs
    rw [hA] at h5
    rw [h]
    exact h5
  · have h : simStore (simStore
        (simWrite (simWrite st.chip.regs TX_ADDR 0 A) RX_ADDR_P0 0 A) EN_RXADDR 0
        ((simWrite (simWrite st.chip.regs TX_ADDR 0 A) RX_ADDR_P0 0 A EN_RXADDR 0 % 256
          ||| bit 0) % 256)) RX_PW_P0 0 (st.payload_size % 256) RX_ADDR_P0 =
        simWrite (simWrite st.chip.regs TX_ADDR 0 A) RX_ADDR_P0 0 A RX_ADDR_P0 := by
      funext i
      rw [simStore_other _ _ _ _ _ _ (by decide), simStore_other _ _ _ _ _ _ (by decide)]
    have h5 := simWrite_readback RX_ADDR_P0 (by decide) A
      (simWrite st.chip.regs TX_ADDR 0 A)
    rw [hA] at h5
    rw [h]
    exact h5
  · rw [simStore_other _ _ _ _ _ _ (by decide), simStore_same _ _ _ _ (by decide)]
    exact testBit_or_bit_mod _ 0 (by decide)

/-- Witness of C5 at the address bytes `55 44 33 22 11`. -/
theorem openWritingPipe_roundtrip_witness :
    demo.addr_width = 5 ∧
    (List.range 5).map
      ((openWritingPipe (simChip 10) 10 [0x55, 0x44, 0x33, 0x22, 0x11] demo).chip.regs
        RX_ADDR_P0) = [0x55, 0x44, 0x33, 0x22, 0x11] :=
  ⟨rfl, (openWritingPipe_roundtrip 10 [0x55, 0x44, 0x33, 0x22, 0x11] demo rfl rfl).2.1⟩

/-- C6: for every payload size `s`, pipe index `n` in 0..5 and address,
`openReadingPipe(n, address)` called after `setPayloadSize(s)` leaves `clamp(s, 1, 32)`
in the width register RX_PW_Pn of the simulated chip, and any number of later
`setPayloadSize` calls adds nothing to the log, leaves the chip as it is and so
leaves that register unchanged. -/
theorem openReadingPipe_width_fixed (cs s n : Nat) (addr sizes : List Nat)
    (st : State SimChip) (hs : s < 256) (hn : n ≤ 5) :
    (openReadingPipe (simChip cs) cs n addr (setPayloadSize s st)).chip.regs
      (RX_PW_P0 + n) 0 = max 1 (min s 32) ∧
    (sizes.foldl (fun acc z => setPayloadSize z acc)
      (openReadingPipe (simChip cs) cs n addr (setPayloadSize s st))).log =
      (openReadingPipe (simChip cs) cs n addr (setPayloadSize s st)).log ∧
    (sizes.foldl (fun acc z => setPayloadSize z acc)
      (openReadingPipe (simChip cs) cs n addr (setPayloadSize s st))).chip =
      (openReadingPipe (simChip cs) cs n addr (setPayloadSize s st)).chip ∧
    (sizes.foldl (fun acc z => setPayloadSize z acc)
      (openReadingPipe (simChip cs) cs n addr (setPayloadSize s st))).chip.regs
      (RX_PW_P0 + n) 0 = max 1 (min s 32) := by
  have h1 : (openReadingPipe (simChip cs) cs n addr (setPayloadSize s st)).chip.regs
      (RX_PW_P0 + n) 0 = max 1 (min s 32) := by
    rw [sim_openReadingPipe_width cs n hn]
    simp only [setPayloadSize, Nat.mod_eq_of_lt hs, amax_amin 1 32 s (by decide)]
    omega
  obtain ⟨h2, h3⟩ := setPayloadSize_foldl sizes
    (openReadingPipe (simChip cs) cs n addr (setPayloadSize s st))
  exact ⟨h1, h2, h3, by rw [h3]; exact h1⟩

/-- Witness of C6, the scenario of the specification: payload size 16, pipe 1 opened
with address `0x1122334455`, then three more `setPayloadSize` calls; RX_PW_P1 reads 16. -/
theorem openReadingPipe_width_fixed_witness :
    ([1, 32, 200].foldl (fun acc z => setPayloadSize z acc)
      (openReadingPipe_u64 (simChip 10) 10 1 0x1122334455
        (setPayloadSize 16 demo))).chip.regs RX_PW_P1 0 = 16 :=
  (openReadingPipe_width_fixed 10 16 1 (bytes_of_uint64 0x1122334455) [1, 32, 200] demo
    (by decide) (by decide)).2.2.2

/-- C7: for every initial CONFIG byte `c` of the simulated chip, with chip-enable and
chip-select on different pins, `startListening()` followed by `stopListening()` ends
with chip-enable low and CONFIG equal to `c` with bit PRIM_RX cleared and every other
bit unchanged; the log of `stopListening` is chip-enable low, the 250 microsecond
wait, the read of CONFIG and only then the write of CONFIG that clears PRIM_RX. The
same order of events holds on every device. -/
theorem listen_then_stop (ce cs : Nat) (hpin : ce ≠ cs) (st : State SimChip)
    (hc : st.chip.regs CONFIG 0 < 256) :
    (stopListening (simChip cs) ce cs (startListening (simChip cs) ce cs st)).pins ce
      = false ∧
    (stopListening (simChip cs) ce cs (startListening (simChip cs) ce cs st)).chip.regs
      CONFIG 0 = st.chip.regs CONFIG 0 &&& 0xFE ∧
    (∀ i, ((stopListening (simChip cs) ce cs
        (startListening (simChip cs) ce cs st)).chip.regs CONFIG 0).testBit i =
      (decide (i ≠ PRIM_RX) && (st.chip.regs CONFIG 0).testBit i)) ∧
    (stopListening (simChip cs) ce cs (startListening (simChip cs) ce cs st)).log =
      (startListening (simChip cs) ce cs st).log ++
        [Event.digitalWrite ce false, Event.delayMicroseconds 250,
         Event.digitalWrite cs false,
         Event.transfer 0x00 (st.chip.regs NRF_STATUS 0 % 256),
         Event.transfer st.uninit (st.chip.regs CONFIG 0 ||| 1),
         Event.digitalWrite cs true,
         Event.digitalWrite cs false,
         Event.transfer 0x20 (st.chip.regs NRF_STATUS 0 % 256),
         Event.transfer (st.chip.regs CONFIG 0 &&& 0xFE) 0,
         Event.digitalWrite cs true] ∧
    (∀ (τ : Type) (D : Device τ) (x : State τ), ∃ s1 v s2 r,
      (stopListening D ce cs x).log = x.log ++
        [Event.digitalWrite ce false, Event.delayMicroseconds 250,
         Event.digitalWrite cs false, Event.transfer 0x00 s1, Event.transfer x.uninit v,
         Event.digitalWrite cs true,
         Event.digitalWrite cs false, Event.transfer 0x20 s2,
         Event.transfer ((v &&& compl32 (bit PRIM_RX)) % 256) r,
         Event.digitalWrite cs true]) := by
  have e1 := sim_spi_other cs 0xE2 (by decide) (by decide)
  have e2 := sim_read_register cs CONFIG (by decide)
  have e3 := fun v => sim_write_register cs CONFIG v (by decide)
  have hv := set_then_clear_prim_rx _ hc
  have hreg : (stopListening (simChip cs) ce cs
      (startListening (simChip cs) ce cs st)).chip.regs CONFIG 0 =
      st.chip.regs CONFIG 0 &&& 0xFE := by
    simp only [stopListening, startListening, FLUSH_RX, e1, e2, e3, simAfter_regs,
      sim_digitalWrite_regs, sim_delayMicroseconds_chip]
    rw [simStore_same _ _ _ _ (by decide), simStore_same _ _ _ _ (by decide), hv]
  have hor : (st.chip.regs CONFIG 0 % 256 ||| bit PRIM_RX) % 256 =
      st.chip.regs CONFIG 0 ||| 1 := by
    have h := hc
    revert h
    generalize st.chip.regs CONFIG 0 = c
    intro h
    interval_cases c <;> rfl
  refine ⟨?_, hreg, ?_, ?_, ?_⟩
  · simp only [stopListening, startListening, FLUSH_RX, e1, e2, e3, simAfter_pins,
      digitalWrite_pins, delayMicroseconds_pins]
    simp [hpin]
  · intro i
    rw [hreg]
    exact testBit_land_fe _ i hc
  · have hs1 : ∀ (regs : Nat → Nat → Nat) (b : Nat),
        simStore regs CONFIG 0 b NRF_STATUS 0 = regs NRF_STATUS 0 :=
      fun regs b => simStore_other regs _ _ _ _ _ (by decide)
    have h32 : 32 + CONFIG = 32 := rfl
    have hA : (st.chip.regs CONFIG 0 ||| 1) % 256 = st.chip.regs CONFIG 0 ||| 1 := by
      rw [← hor, Nat.mod_mod]
    have hB : ((st.chip.regs CONFIG 0 ||| 1) &&& compl32 (bit PRIM_RX)) % 256 =
        st.chip.regs CONFIG 0 &&& 254 := by
      rw [← hv, hor, hA]
    simp only [stopListening, startListening, FLUSH_RX, e1, e2, e3, simAfter_regs,
      simAfter_log, simAfter_uninit, sim_digitalWrite_regs, sim_delayMicroseconds_chip,
      digitalWrite_log, delayMicroseconds_log, digitalWrite_uninit,
      delayMicroseconds_uninit, hs1, simStore_same _ _ _ _ (show CONFIG ≠ NRF_STATUS by decide),
      hor, hA, hB, h32, List.append_assoc, List.cons_append, List.nil_append]
    rfl
  · intro τ D x
    obtain ⟨s1, h1⟩ := read_register_log D cs CONFIG
      (delayMicroseconds D 250 (digitalWrite D ce false x))
    obtain ⟨r, h2⟩ := write_register_log D cs CONFIG
      ((read_register D cs CONFIG
        (delayMicroseconds D 250 (digitalWrite D ce false x))).1 &&& compl32 (bit PRIM_RX))
      (read_register D cs CONFIG (delayMicroseconds D 250 (digitalWrite D ce false x))).2
    refine ⟨s1, (read_register D cs CONFIG
        (delayMicroseconds D 250 (digitalWrite D ce false x))).1,
      (write_register D cs CONFIG
        ((read_register D cs CONFIG
          (delayMicroseconds D 250 (digitalWrite D ce false x))).1 &&& compl32 (bit PRIM_RX))
        (read_register D cs CONFIG
          (delayMicroseconds D 250 (digitalWrite D ce false x))).2).1, r, ?_⟩
    simp only [stopListening, h2, h1, delayMicroseconds_log, digitalWrite_log,
      delayMicroseconds_uninit, digitalWrite_uninit, List.append_assoc, List.cons_append,
      List.nil_append]
    rfl

/-- Witness of C7 on the simulated chip with CONFIG `0x0A`: chip-enable (pin 9) ends
low and CONFIG reads `0x0A` again. -/
theorem listen_then_stop_witness :
    (9 : Nat) ≠ 10 ∧ demo.chip.regs CONFIG 0 = 0x0A ∧
    (stopListening (simChip 10) 9 10 (startListening (simChip 10) 9 10 demo)).pins 9
      = false ∧
    (stopListening (simChip 10) 9 10 (startListening (simChip 10) 9 10 demo)).chip.regs
      CONFIG 0 = 0x0A :=
  ⟨by decide, rfl, (listen_then_stop 9 10 (by decide) demo (by decide)).1,
   (listen_then_stop 9 10 (by decide) demo (by decide)).2.1⟩

/-- C8: for all addresses `A` and `B` of the configured width, `openWritingPipe(A)`
followed by `openReadingPipe(0, B)` leaves, on the simulated chip, RX_ADDR_P0 holding
`B`, TX_ADDR holding `A` and bit 0 of EN_RXADDR set. -/
theorem writing_then_reading_pipe0 (cs : Nat) (A B : List Nat) (st : State SimChip)
    (hw : st.addr_width < 256) (hA : A.length = st.addr_width)
    (hB : B.length = st.addr_width) :
    (List.range st.addr_width).map
      ((openReadingPipe (simChip cs) cs 0 B
        (openWritingPipe (simChip cs) cs A st)).chip.regs RX_ADDR_P0) = B ∧
    (List.range st.addr_width).map
      ((openReadingPipe (simChip cs) cs 0 B
        (openWritingPipe (simChip cs) cs A st)).chip.regs TX_ADDR) = A ∧
    ((openReadingPipe (simChip cs) cs 0 B
        (openWritingPipe (simChip cs) cs A st)).chip.regs EN_RXADDR 0).testBit 0 = true := by
  have hw1 : (openWritingPipe (simChip cs) cs A st).addr_width = st.addr_width := by
    rw [sim_openWritingPipe, sim_openReadingPipe_addr_width cs 0 (by decide)]
    rfl
  have hTA : A.take (st.addr_width % 256) = A :=
    List.take_of_length_le (by rw [Nat.mod_eq_of_lt hw, hA])
  have hTB : B.take (st.addr_width % 256) = B :=
    List.take_of_length_le (by rw [Nat.mod_eq_of_lt hw, hB])
  refine ⟨?_, ?_, sim_openReadingPipe_enable cs 0 (by decide) _ _⟩
  · have h := sim_openReadingPipe_addr cs 0 (by decide) B
      (openWritingPipe (simChip cs) cs A st)
    rw [Nat.add_zero] at h
    rw [h, hw1, hTB]
    have h5 := simWrite_readback RX_ADDR_P0 (by decide) B
      (openWritingPipe (simChip cs) cs A st).chip.regs
    rw [hB] at h5
    exact h5
  · rw [sim_openReadingPipe_frame cs 0 (by decide) _ _ TX_ADDR (by decide) (by decide)
      (by decide), sim_openWritingPipe_tx, hTA]
    have h5 := simWrite_readback TX_ADDR (by decide) A st.chip.regs
    rw [hA] at h5
    exact h5

/-- Witness of C8 at `A = 55 44 33 22 11` and `B = A5 B4 C3 D2 E1`. -/
theorem writing_then_reading_pipe0_witness :
    (List.range 5).map
      ((openReadingPipe (simChip 10) 10 0 [0xA5, 0xB4, 0xC3, 0xD2, 0xE1]
        (openWritingPipe (simChip 10) 10 [0x55, 0x44, 0x33, 0x22, 0x11] demo)).chip.regs
          RX_ADDR_P0) = [0xA5, 0xB4, 0xC3, 0xD2, 0xE1] ∧
    (List.range 5).map
      ((openReadingPipe (simChip 10) 10 0 [0xA5, 0xB4, 0xC3, 0xD2, 0xE1]
        (openWritingPipe (simChip 10) 10 [0x55, 0x44, 0x33, 0x22, 0x11] demo)).chip.regs
          TX_ADDR) = [0x55, 0x44, 0x33, 0x22, 0x11] :=
  ⟨(writing_then_reading_pipe0 10 [0x55, 0x44, 0x33, 0x22, 0x11]
      [0xA5, 0xB4, 0xC3, 0xD2, 0xE1] demo (by decide) rfl rfl).1,
   (writing_then_reading_pipe0 10 [0x55, 0x44, 0x33, 0x22, 0x11]
      [0xA5, 0xB4, 0xC3, 0xD2, 0xE1] demo (by decide) rfl rfl).2.1⟩

/-- C9, as the code has it: for every pipe index `n` in 0..5, pipes 2..5 included,
the transaction `openReadingPipe(n, address)` issues to RX_ADDR_Pn (command byte
`0x2A + n`) carries the full configured address width of data bytes, the first
`addr_width` bytes of the address in order; it is followed by the read and the write
of EN_RXADDR and the write of RX_PW_Pn and by no other transaction. -/
theorem openReadingPipe_address_bytes (D : Device σ) (cs n : Nat) (addr : List Nat)
    (st : State σ) (hn : n ≤ 5) (hw : st.addr_width < 256)
    (ha : st.addr_width ≤ addr.length) :
    ∃ (s0 : Nat) (rs : List Nat) (s1 v s2 r2 s3 r3 : Nat),
      rs.length = st.addr_width ∧
      (addr.take st.addr_width).length = st.addr_width ∧
      (openReadingPipe D cs n addr st).log = st.log ++
        (frame cs (0x2A + n) s0 (addr.take st.addr_width) rs ++
         frame cs 0x02 s1 [st.uninit] [v] ++
         frame cs 0x22 s2 [(v ||| bit n) % 256] [r2] ++
         frame cs (0x31 + n) s3 [st.payload_size % 256] [r3]) := by
  obtain ⟨s0, rs, s1, v, s2, r2, s3, r3, hrs, hlog⟩ := openReadingPipe_log D cs n addr st
  have h1 : n % 256 = n := by omega
  have h2 : (W_REGISTER ||| (RX_ADDR_P0 + n)) % 256 = 0x2A + n := by
    rw [w_register_or _ (by simp only [RX_ADDR_P0]; omega)]
    simp only [RX_ADDR_P0]; omega
  have h3 : (W_REGISTER ||| (RX_PW_P0 + n) % 256) % 256 = 0x31 + n := by
    have h : (RX_PW_P0 + n) % 256 = RX_PW_P0 + n := by simp only [RX_PW_P0]; omega
    rw [h, w_register_or _ (by simp only [RX_PW_P0]; omega)]
    simp only [RX_PW_P0]; omega
  have h4 : (addr.take st.addr_width).length = st.addr_width := by
    rw [List.length_take]; omega
  rw [h1, h2, h3, Nat.mod_eq_of_lt hw] at hlog
  rw [Nat.mod_eq_of_lt hw, h4] at hrs
  exact ⟨s0, rs, s1, v, s2, r2, s3, r3, hrs, h4, hlog⟩

/-- Witness of C9 as amended, at pipe 2 on the simulated chip. -/
theorem openReadingPipe_address_bytes_witness :
    ∃ (s0 : Nat) (rs : List Nat) (s1 v s2 r2 s3 r3 : Nat),
      rs.length = demo.addr_width ∧
      ([0x55, 0x44, 0x33, 0x22, 0x11].take demo.addr_width).length = demo.addr_width ∧
      (openReadingPipe (simChip 10) 10 2 [0x55, 0x44, 0x33, 0x22, 0x11] demo).log =
        demo.log ++
        (frame 10 (0x2A + 2) s0 ([0x55, 0x44, 0x33, 0x22, 0x11].take demo.addr_width) rs ++
         frame 10 0x02 s1 [demo.uninit] [v] ++
         frame 10 0x22 s2 [(v ||| bit 2) % 256] [r2] ++
         frame 10 (0x31 + 2) s3 [demo.payload_size % 256] [r3]) :=
  openReadingPipe_address_bytes (simChip 10) 10 2 [0x55, 0x44, 0x33, 0x22, 0x11] demo
    (by decide) (by decide) (by decide)

/-- Counterexample to C9 as stated: opening pipe 2 with the default address width
sends five data bytes to RX_ADDR_P2 (command `0x2C`), not the single low-order byte. -/
theorem openReadingPipe_pipe2_sends_five_bytes :
    transactions 10
      (openReadingPipe (simChip 10) 10 2 [0x55, 0x44, 0x33, 0x22, 0x11] demo).log =
      [[0x2C, 0x55, 0x44, 0x33, 0x22, 0x11], [0x02, 0xAA], [0x22, 0x04], [0x33, 0x10]] ∧
    (transactions 10
      (openReadingPipe (simChip 10) 10 2 [0x55, 0x44, 0x33, 0x22, 0x11] demo).log).head? ≠
      some [0x2C, 0x55] := by
  decide

/-- C10, as the code has it: for every 8-bit register address `a` the command byte of
a register read is `R_REGISTER | a` and that of a register write is `W_REGISTER | a`,
with no masking; they equal `R_REGISTER | (a & 0x1F)` and `W_REGISTER | (a & 0x1F)`
when `a` is at most `0x1F`; and for every pipe index in 0..5 the register commands
issued by `openReadingPipe` are `0x2A + n`, `0x02`, `0x22` and `0x31 + n`, all inside
`0x00..0x3F`. -/
theorem register_command_bytes (D : Device σ) (cs a v : Nat) (st : State σ)
    (ha : a < 256) :
    (∃ s, (read_register D cs a st).2.log = st.log ++
      frame cs (R_REGISTER ||| a) s [st.uninit] [(read_register D cs a st).1]) ∧
    (∃ r, (write_register D cs a v st).2.log = st.log ++
      frame cs (W_REGISTER ||| a) (write_register D cs a v st).1 [v % 256] [r]) ∧
    (a ≤ 0x1F → R_REGISTER ||| a = R_REGISTER ||| (a &&& REGISTER_MASK) ∧
      W_REGISTER ||| a = W_REGISTER ||| (a &&& REGISTER_MASK)) ∧
    (∀ (n : Nat) (addr : List Nat), n ≤ 5 →
      ∃ (s0 : Nat) (rs : List Nat) (s1 w s2 r2 s3 r3 : Nat),
        (openReadingPipe D cs n addr st).log = st.log ++
          (frame cs (0x2A + n) s0 (addr.take (st.addr_width % 256)) rs ++
           frame cs 0x02 s1 [st.uninit] [w] ++
           frame cs 0x22 s2 [(w ||| bit n) % 256] [r2] ++
           frame cs (0x31 + n) s3 [st.payload_size % 256] [r3]) ∧
        0x2A + n ≤ 0x3F ∧ 0x31 + n ≤ 0x3F) := by
  have h1 : a % 256 = a := Nat.mod_eq_of_lt ha
  have h2 : (W_REGISTER ||| a) % 256 = W_REGISTER ||| a :=
    Nat.mod_eq_of_lt (@Nat.or_lt_two_pow _ _ 8 (by decide) ha)
  have h3 : (R_REGISTER ||| a) % 256 = R_REGISTER ||| a := by
    simp only [R_REGISTER, Nat.zero_or, h1]
  refine ⟨?_, ?_, ?_, ?_⟩
  · obtain ⟨s, hs⟩ := read_register_log D cs a st
    rw [h1, h3] at hs
    exact ⟨s, hs⟩
  · obtain ⟨r, hr⟩ := write_register_log D cs a v st
    rw [h1, h2] at hr
    exact ⟨r, hr⟩
  · intro h
    have hm : a &&& REGISTER_MASK = a := by
      simp only [REGISTER_MASK]
      interval_cases a <;> rfl
    rw [hm]
    exact ⟨rfl, rfl⟩
  · intro n addr hn
    obtain ⟨s0, rs, s1, w, s2, r2, s3, r3, _, hlog⟩ := openReadingPipe_log D cs n addr st
    have e1 : n % 256 = n := by omega
    have e2 : (W_REGISTER ||| (RX_ADDR_P0 + n)) % 256 = 0x2A + n := by
      rw [w_register_or _ (by simp only [RX_ADDR_P0]; omega)]
      simp only [RX_ADDR_P0]; omega
    have e3 : (W_REGISTER ||| (RX_PW_P0 + n) % 256) % 256 = 0x31 + n := by
      have h : (RX_PW_P0 + n) % 256 = RX_PW_P0 + n := by simp only [RX_PW_P0]; omega
      rw [h, w_register_or _ (by simp only [RX_PW_P0]; omega)]
      simp only [RX_PW_P0]; omega
    rw [e1, e2, e3] at hlog
    exact ⟨s0, rs, s1, w, s2, r2, s3, r3, hlog, by omega, by omega⟩

/-- Witness of C10 as amended, at the register FIFO_STATUS on the simulated chip. -/
theorem register_command_bytes_witness :
    transactions 10 (read_register (simChip 10) 10 FIFO_STATUS demo).2.log =
      [[R_REGISTER ||| (FIFO_STATUS &&& REGISTER_MASK), 0xAA]] ∧
    (R_REGISTER ||| FIFO_STATUS = R_REGISTER ||| (FIFO_STATUS &&& REGISTER_MASK) ∧
      W_REGISTER ||| FIFO_STATUS = W_REGISTER ||| (FIFO_STATUS &&& REGISTER_MASK)) :=
  ⟨by decide,
   (register_command_bytes (simChip 10) 10 FIFO_STATUS 0 demo (by decide)).2.2.1
     (by decide)⟩

/-- Counterexample to C10 as stated: the register address `0x20` is read with the
command byte `0x20`, not `R_REGISTER | (0x20 & 0x1F) = 0x00`; the register address
`0x40` is written with the command byte `0x60`, not `0x20`; and for the pipe index 54
the first command of `openReadingPipe` is `0x60`, outside `0x00..0x3F`. -/
theorem register_command_unmasked :
    transactions 10 (read_register (simChip 10) 10 0x20 demo).2.log = [[0x20, 0xAA]] ∧
    R_REGISTER ||| (0x20 &&& REGISTER_MASK) = 0x00 ∧
    transactions 10 (write_register (simChip 10) 10 0x40 7 demo).2.log = [[0x60, 7]] ∧
    W_REGISTER ||| (0x40 &&& REGISTER_MASK) = 0x20 ∧
    (transactions 10
      (openReadingPipe (simChip 10) 10 54 [0x55, 0x44, 0x33, 0x22, 0x11] demo).log).head? =
      some [0x60, 0x55, 0x44, 0x33, 0x22, 0x11] := by
  decide

/-- C11, as the code has it: `begin` writes `0x3F` to SETUP_RETR in one transaction
(command `0x24`); the auto-retransmit count field (bits 3..0) of that value is the
maximum 15 and its auto-retransmit delay field (bits 7..4) is 3. The simulated chip
holds that value in SETUP_RETR afterward. -/
theorem begin_setup_retr (D : Device σ) (ce cs : Nat) (st : State σ) :
    (∃ (pre post : List Event) (s r : Nat),
      (begin D ce cs st).log = pre ++ frame cs (W_REGISTER ||| SETUP_RETR) s [0x3F] [r] ++ post) ∧
    (∀ sim : State SimChip, (begin (simChip cs) ce cs sim).chip.regs SETUP_RETR 0 = 0x3F) ∧
    (0x3F >>> ARC) &&& 0xF = 15 ∧ (0x3F >>> ARD) &&& 0xF = 3 := by
  refine ⟨?_, ?_, by decide, by decide⟩
  · obtain ⟨s1, r1, s2, r2, s3, r3, h⟩ := begin_log D ce cs st
    refine ⟨st.log ++ ([Event.spiBegin, Event.pinMode ce, Event.pinMode cs,
        Event.digitalWrite ce false, Event.digitalWrite cs true,
        Event.delayMicroseconds 5000] ++ frame cs 0x27 s1 [0x70] [r1]),
      frame cs 0x20 s3 [0x0A] [r3] ++ [Event.delayMicroseconds 1500], s2, r2, ?_⟩
    rw [h]
    simp only [List.append_assoc]
    rfl
  · intro sim
    rw [sim_begin_regs, simStore_other _ _ _ _ _ _ (by decide),
      simStore_same _ _ _ _ (by decide)]

/-- Counterexample to C11 as stated: on the simulated chip `begin` issues the
transactions `27 70`, `24 3F`, `20 0A`, and the delay field (bits 7..4) of the value
left in SETUP_RETR is 3, not 15. -/
theorem begin_retransmit_delay_is_three :
    transactions 10 (begin (simChip 10) 9 10 demo).log =
      [[0x27, 0x70], [0x24, 0x3F], [0x20, 0x0A]] ∧
    ((begin (simChip 10) 9 10 demo).chip.regs SETUP_RETR 0 >>> ARD) &&& 0xF = 3 ∧
    ((begin (simChip 10) 9 10 demo).chip.regs SETUP_RETR 0 >>> ARD) &&& 0xF ≠ 15 := by
  decide

/-- C16: `begin` produces, in this order, chip-enable low and chip-select high, a wait
of 5000 microseconds before the first bus transaction, the write of `0x70`
(RX_DR|TX_DS|MAX_RT) to STATUS, a write to SETUP_RETR, a single write of `0x0A` to
CONFIG (exactly PWR_UP and EN_CRC, PRIM_RX clear) and finally a wait of 1500
microseconds. -/
theorem begin_order (D : Device σ) (ce cs : Nat) (st : State σ) :
    (∃ s1 r1 s2 r2 s3 r3 : Nat, (begin D ce cs st).log = st.log ++
      ([Event.spiBegin, Event.pinMode ce, Event.pinMode cs,
        Event.digitalWrite ce false, Event.digitalWrite cs true,
        Event.delayMicroseconds 5000] ++
       frame cs (W_REGISTER ||| NRF_STATUS) s1 [0x70] [r1] ++
       frame cs (W_REGISTER ||| SETUP_RETR) s2 [0x3F] [r2] ++
       frame cs (W_REGISTER ||| CONFIG) s3 [0x0A] [r3] ++
       [Event.delayMicroseconds 1500])) ∧
    0x70 = bit RX_DR ||| bit TX_DS ||| bit MAX_RT ∧
    0x0A = bit PWR_UP ||| bit EN_CRC ∧
    (∀ i, (0x0A).testBit i = decide (i = PWR_UP ∨ i = EN_CRC)) ∧
    (0x0A).testBit PRIM_RX = false := by
  refine ⟨begin_log D ce cs st, by decide, by decide, ?_, by decide⟩
  intro i
  have h : (0x0A : Nat) = 2 ^ 1 ||| 2 ^ 3 := by decide
  rw [h, Nat.testBit_or, Nat.testBit_two_pow, Nat.testBit_two_pow]
  simp only [PWR_UP, EN_CRC]
  by_cases h1 : i = 1 <;> by_cases h3 : i = 3 <;> simp [h1, h3, eq_comm]

/-- C12: for every prior register byte, `setPALevel(level)` with `level` one of MIN,
LOW, HIGH, MAX leaves `(r & 0xF9) | level` in RF_SETUP, `setDataRate(rate)` leaves
`(r & 0xD7) | rate` in RF_SETUP and `setCRCLength(len)` leaves `(c & 0xF3) | len` in
CONFIG on the simulated chip; every bit outside the field (`0x06`, `0x28`, `0x0C`)
keeps its prior value and the bits of the field equal those of the enum value. On
every device each setter is the read of the register followed by the write of that
value computed from the byte read. -/
theorem setters_read_modify_write (cs : Nat) (level : rf24_pa_dbm_enum)
    (rate : rf24_datarate_enum) (crclen : rf24_crclength_enum) (sim : State SimChip)
    (r c : Nat) (hl : level ≠ rf24_pa_dbm_enum.RF24_PA_ERROR)
    (hr : sim.chip.regs RF_SETUP 0 = r) (hr8 : r < 256)
    (hc : sim.chip.regs CONFIG 0 = c) (hc8 : c < 256) :
    ((setPALevel (simChip cs) cs level sim).chip.regs RF_SETUP 0 =
        (r &&& 0xF9) ||| level.toNat ∧
      (setDataRate (simChip cs) cs rate sim).chip.regs RF_SETUP 0 =
        (r &&& 0xD7) ||| rate.toNat ∧
      (setCRCLength (simChip cs) cs crclen sim).chip.regs CONFIG 0 =
        (c &&& 0xF3) ||| crclen.toNat) ∧
    (∀ i, ((r &&& 0xF9) ||| level.toNat).testBit i =
        if (0x06).testBit i = true then level.toNat.testBit i else r.testBit i) ∧
    (∀ i, ((r &&& 0xD7) ||| rate.toNat).testBit i =
        if (0x28).testBit i = true then rate.toNat.testBit i else r.testBit i) ∧
    (∀ i, ((c &&& 0xF3) ||| crclen.toNat).testBit i =
        if (0x0C).testBit i = true then crclen.toNat.testBit i else c.testBit i) ∧
    (∀ (τ : Type) (D : Device τ) (x : State τ),
      (∃ s1 v s2 r2 : Nat, v < 256 ∧ (setPALevel D cs level x).log = x.log ++
        (frame cs (R_REGISTER ||| RF_SETUP) s1 [x.uninit] [v] ++
         frame cs (W_REGISTER ||| RF_SETUP) s2 [(v &&& 0xF9) ||| level.toNat] [r2])) ∧
      (∃ s1 v s2 r2 : Nat, v < 256 ∧ (setDataRate D cs rate x).log = x.log ++
        (frame cs (R_REGISTER ||| RF_SETUP) s1 [x.uninit] [v] ++
         frame cs (W_REGISTER ||| RF_SETUP) s2 [(v &&& 0xD7) ||| rate.toNat] [r2])) ∧
      (∃ s1 v s2 r2 : Nat, v < 256 ∧ (setCRCLength D cs crclen x).log = x.log ++
        (frame cs (R_REGISTER ||| CONFIG) s1 [x.uninit] [v] ++
         frame cs (W_REGISTER ||| CONFIG) s2 [(v &&& 0xF3) ||| crclen.toNat] [r2]))) := by
  have hlv : level.toNat < 256 ∧ level.toNat &&& 0xF9 = 0 := by
    cases level <;> first | exact absurd rfl hl | exact ⟨by decide, by decide⟩
  have hrt : rate.toNat < 256 ∧ rate.toNat &&& 0xD7 = 0 := by
    cases rate <;> exact ⟨by decide, by decide⟩
  have hcl : crclen.toNat < 256 ∧ crclen.toNat &&& 0xF3 = 0 := by
    cases crclen <;> exact ⟨by decide, by decide⟩
  refine ⟨⟨?_, ?_, ?_⟩, ?_, ?_, ?_, ?_⟩
  · have h := sim_rmw_regs cs RF_SETUP (by decide) (by decide)
      (fun v => (v &&& 0xF9) ||| level.toNat) sim
    simp only [hr, Nat.mod_eq_of_lt hr8, field_update_lt r 0xF9 _ (by decide) hlv.1] at h
    exact h
  · have h := sim_rmw_regs cs RF_SETUP (by decide) (by decide)
      (fun v => (v &&& 0xD7) ||| rate.toNat) sim
    simp only [hr, Nat.mod_eq_of_lt hr8, field_update_lt r 0xD7 _ (by decide) hrt.1] at h
    exact h
  · have h := sim_rmw_regs cs CONFIG (by decide) (by decide)
      (fun v => (v &&& 0xF3) ||| crclen.toNat) sim
    simp only [hc, Nat.mod_eq_of_lt hc8, field_update_lt c 0xF3 _ (by decide) hcl.1] at h
    exact h
  · intro i
    exact testBit_field_update r 0xF9 0x06 _ i hr8 hlv.1 hlv.2 (by decide)
  · intro i
    exact testBit_field_update r 0xD7 0x28 _ i hr8 hrt.1 hrt.2 (by decide)
  · intro i
    exact testBit_field_update c 0xF3 0x0C _ i hc8 hcl.1 hcl.2 (by decide)
  · intro τ D x
    refine ⟨?_, ?_, ?_⟩
    · obtain ⟨s1, v, s2, r2, hv, h⟩ :=
        rmw_log D cs RF_SETUP (fun v => (v &&& 0xF9) ||| level.toNat) x
      simp only [field_update_lt v 0xF9 _ (by decide) hlv.1] at h
      exact ⟨s1, v, s2, r2, hv, h⟩
    · obtain ⟨s1, v, s2, r2, hv, h⟩ :=
        rmw_log D cs RF_SETUP (fun v => (v &&& 0xD7) ||| rate.toNat) x
      simp only [field_update_lt v 0xD7 _ (by decide) hrt.1] at h
      exact ⟨s1, v, s2, r2, hv, h⟩
    · obtain ⟨s1, v, s2, r2, hv, h⟩ :=
        rmw_log D cs CONFIG (fun v => (v &&& 0xF3) ||| crclen.toNat) x
      simp only [field_update_lt v 0xF3 _ (by decide) hcl.1] at h
      exact ⟨s1, v, s2, r2, hv, h⟩

/-- Witness of C12 on the simulated chip with every register byte `0xFF`: power
level LOW leaves `0xFB` in RF_SETUP, data rate 250 kbps leaves `0xF7`, CRC of 8 bits
leaves `0xFB` in CONFIG. -/
theorem setters_read_modify_write_witness :
    (setPALevel (simChip 10) 10 rf24_pa_dbm_enum.RF24_PA_LOW
      { demo with chip := { demo.chip with regs := fun _ _ => 0xFF } }).chip.regs
        RF_SETUP 0 = 0xFB ∧
    (setDataRate (simChip 10) 10 rf24_datarate_enum.RF24_250KBPS
      { demo with chip := { demo.chip with regs := fun _ _ => 0xFF } }).chip.regs
        RF_SETUP 0 = 0xF7 ∧
    (setCRCLength (simChip 10) 10 rf24_crclength_enum.RF24_CRC_8
      { demo with chip := { demo.chip with regs := fun _ _ => 0xFF } }).chip.regs
        CONFIG 0 = 0xFB :=
  (setters_read_modify_write 10 rf24_pa_dbm_enum.RF24_PA_LOW
    rf24_datarate_enum.RF24_250KBPS rf24_crclength_enum.RF24_CRC_8
    { demo with chip := { demo.chip with regs := fun _ _ => 0xFF } }
    0xFF 0xFF (by decide) rfl (by decide) rfl (by decide)).1

/-- C13, as the code has it: `setAutoAck(pipe, enable)` with `pipe` in 0..5 is a
read-modify-write of EN_AA: it reads EN_AA and writes back the byte read with bit
`pipe` equal to `enable` and every other bit as read. `setAutoAck(enable)` issues one
write of EN_AA and no read: the byte `0x3F` or `0`, whose bits 0..5 equal `enable` and
whose bits 6 and 7 are zero. -/
theorem setAutoAck_spec (D : Device σ) (cs pipe : Nat) (enable : Bool) (st : State σ)
    (hp : pipe ≤ 5) :
    (∃ s1 v s2 w r2 : Nat, v < 256 ∧
      (setAutoAck_pipe D cs pipe enable st).log = st.log ++
        (frame cs (R_REGISTER ||| EN_AA) s1 [st.uninit] [v] ++
         frame cs (W_REGISTER ||| EN_AA) s2 [w] [r2]) ∧
      (∀ i, w.testBit i = if i = pipe then enable else v.testBit i)) ∧
    (∃ s r : Nat, (setAutoAck D cs enable st).log = st.log ++
      frame cs (W_REGISTER ||| EN_AA) s [if enable then 0x3F else 0] [r]) ∧
    (∀ i, (if enable then 0x3F else 0 : Nat).testBit i = (decide (i ≤ 5) && enable)) := by
  have hp1 : pipe % 256 = pipe := by omega
  refine ⟨?_, ?_, ?_⟩
  · obtain ⟨s1, v, s2, r2, hv, h⟩ := rmw_log D cs EN_AA
      (fun v => if enable then (v ||| bit (pipe % 256)) % 256
        else (v &&& compl32 (bit (pipe % 256))) % 256) st
    refine ⟨s1, v, s2, _, r2, hv, h, ?_⟩
    intro i
    cases enable
    · simp only [hp1, Bool.false_eq_true, if_false]
      exact testBit_clear_bit v pipe i hv (by omega)
    · simp only [hp1, if_true]
      exact testBit_set_bit v pipe i hv (by omega)
  · obtain ⟨r, h⟩ := write_register_frame D cs EN_AA (if enable then 0x3F else 0) st
    refine ⟨(write_register D cs EN_AA (if enable then 0x3F else 0) st).1, r, ?_⟩
    rw [setAutoAck, h]
    cases enable <;> rfl
  · intro i
    cases enable
    · simp
    · have h : (0x3F : Nat) = 2 ^ 6 - 1 := by decide
      simp only [if_true, h, Nat.testBit_two_pow_sub_one, Bool.and_true]
      by_cases h6 : i < 6
      · have h5 : i ≤ 5 := by omega
        simp [h6, h5]
      · have h5 : ¬ i ≤ 5 := by omega
        simp [h6, h5]

/-- Witness of C13 as amended: enabling auto-acknowledgement on pipe 3 of the
simulated chip reads EN_AA and writes back `0x08`. -/
theorem setAutoAck_spec_witness :
    transactions 10 (setAutoAck_pipe (simChip 10) 10 3 true demo).log =
      [[0x01, 0xAA], [0x21, 0x08]] ∧
    (∀ i, (if true then 0x3F else 0 : Nat).testBit i = (decide (i ≤ 5) && true)) :=
  ⟨by decide, (setAutoAck_spec (simChip 10) 10 3 true demo (by decide)).2.2⟩

/-- Counterexample to C13 as stated: `setAutoAck(true)` issues the single transaction
`21 3F` and never reads EN_AA; on a chip whose EN_AA holds `0xFF` it leaves `0x3F`, so
bits 6 and 7 do not keep their value. -/
theorem setAutoAck_global_is_plain_write :
    transactions 10 (setAutoAck (simChip 10) 10 true demo).log = [[0x21, 0x3F]] ∧
    (setAutoAck (simChip 10) 10 true
      { demo with chip := { demo.chip with regs := fun _ _ => 0xFF } }).chip.regs
        EN_AA 0 = 0x3F := by
  decide

/-- C17: `available(pipe)` stores `(s >> 1) & 7` in the output pipe number, `s` being
the status byte of its first poll; that number is at most 7; and the result and the
final state are those of `available()` run after that poll. -/
theorem available_pipe_spec (D : Device σ) (cs : Nat) (st : State σ) :
    (available_pipe D cs st).2.1 = ((status D cs st).1 >>> RX_P_NO) &&& 7 ∧
    (available_pipe D cs st).2.1 ≤ 7 ∧
    (available_pipe D cs st).1 = (available D cs (status D cs st).2).1 ∧
    (available_pipe D cs st).2.2 = (available D cs (status D cs st).2).2 ∧
    (∀ (s : Nat) (sim : State SimChip), s < 256 → sim.chip.regs NRF_STATUS 0 = s →
      (available_pipe (simChip cs) cs sim).2.1 = (s >>> 1) &&& 7) := by
  have h7 : ∀ x : Nat, x &&& 7 < 8 := fun x => @Nat.and_lt_two_pow x 7 3 (by decide)
  have hm : ∀ x : Nat, (x &&& 7) % 256 = x &&& 7 := fun x =>
    Nat.mod_eq_of_lt (Nat.lt_trans (h7 x) (by decide))
  refine ⟨?_, ?_, rfl, rfl, ?_⟩
  · simp only [available_pipe]
    exact hm _
  · simp only [available_pipe]
    rw [hm]
    exact Nat.le_of_lt_succ (h7 _)
  · intro s sim hs h
    simp only [available_pipe, sim_status, h, Nat.mod_eq_of_lt hs, RX_P_NO]
    exact hm _

/-- C14: for every destination buffer and every 8-bit length `len`, `read` issues the
command R_RX_PAYLOAD (`0x61`) followed by exactly `len` data bytes, all `0xFF`, leaves
in the first `len` bytes of the buffer the bytes the device returned for them and
the rest of the buffer as it was, and then writes exactly `0x40` (the RX_DR bit) to
STATUS; on the simulated chip this clears RX_DR and leaves TX_DS and MAX_RT as they
were. -/
theorem read_spec (D : Device σ) (cs : Nat) (buf : List Nat) (len : Nat) (st : State σ)
    (hl : len < 256) :
    (∃ (s : Nat) (rs : List Nat) (s2 r2 : Nat), rs.length = len ∧
      (read D cs buf len st).2.log = st.log ++
        (frame cs R_RX_PAYLOAD s (List.replicate len NOP) rs ++
         frame cs (W_REGISTER ||| NRF_STATUS) s2 [0x40] [r2]) ∧
      (read D cs buf len st).1 = rs ++ buf.drop len) ∧
    0x40 = bit RX_DR ∧
    (∀ sim : State SimChip,
      ((read (simChip cs) cs buf len sim).2.chip.regs NRF_STATUS 0).testBit RX_DR = false ∧
      ((read (simChip cs) cs buf len sim).2.chip.regs NRF_STATUS 0).testBit TX_DS =
        (sim.chip.regs NRF_STATUS 0).testBit TX_DS ∧
      ((read (simChip cs) cs buf len sim).2.chip.regs NRF_STATUS 0).testBit MAX_RT =
        (sim.chip.regs NRF_STATUS 0).testBit MAX_RT) := by
  have hm : len % 256 = len := Nat.mod_eq_of_lt hl
  obtain ⟨ht, hd⟩ := memset_take_drop buf NOP len
  refine ⟨?_, by decide, ?_⟩
  · obtain ⟨rs, h1, h2, h3⟩ := spi_buf_log D cs R_RX_PAYLOAD (memset buf NOP (len % 256)) len st
    obtain ⟨r2, h4⟩ := write_register_frame D cs NRF_STATUS (bit RX_DR)
      (spi_buf D cs R_RX_PAYLOAD (memset buf NOP (len % 256)) len st).2.2
    rw [hm] at h1 h2 h3 h4
    rw [ht] at h1 h2
    rw [hd] at h3
    have hn : NOP % 256 = NOP := by decide
    rw [hn] at h1 h2
    refine ⟨(spi_buf D cs R_RX_PAYLOAD (memset buf NOP len) len st).1, rs,
      (write_register D cs NRF_STATUS (bit RX_DR)
        (spi_buf D cs R_RX_PAYLOAD (memset buf NOP len) len st).2.2).1, r2, ?_, ?_, ?_⟩
    · rw [h1, List.length_replicate]
    · simp only [read, hm, h4, h2, List.append_assoc]
      rfl
    · simp only [read, hm, h3]
  · intro sim
    have e1 : (read (simChip cs) cs buf len sim).2.chip.regs NRF_STATUS 0 =
        sim.chip.regs NRF_STATUS 0 &&& (0xFF ^^^ (0x40 &&& 0x70)) := by
      have h := spi_eq_spi_buf (simChip cs) cs R_RX_PAYLOAD (memset buf NOP (len % 256)) len sim
      rw [sim_spi_other cs R_RX_PAYLOAD (by decide) (by decide)] at h
      have h5 := congrArg Prod.snd h
      simp only at h5
      simp only [read, ← h5, sim_write_register cs NRF_STATUS _ (by decide), simAfter_regs]
      simp [simStore, bit, RX_DR]
    rw [e1]
    simp only [Nat.testBit_and]
    refine ⟨?_, ?_, ?_⟩
    · have : (0xFF ^^^ (0x40 &&& 0x70) : Nat).testBit RX_DR = false := by decide
      rw [this, Bool.and_false]
    · have : (0xFF ^^^ (0x40 &&& 0x70) : Nat).testBit TX_DS = true := by decide
      rw [this, Bool.and_true]
    · have : (0xFF ^^^ (0x40 &&& 0x70) : Nat).testBit MAX_RT = true := by decide
      rw [this, Bool.and_true]

/-- Witness of C14 on a device that answers 1, 2, 3, ...: reading three bytes into a
buffer of five nines leaves `2 3 4 9 9`. -/
theorem read_spec_witness :
    (read countChip 10 [9, 9, 9, 9, 9] 3 (RF24_new 16 0 (fun _ => false) 0)).1 =
      [2, 3, 4, 9, 9] ∧
    transactions 10
      (read countChip 10 [9, 9, 9, 9, 9] 3 (RF24_new 16 0 (fun _ => false) 0)).2.log =
      [[0x61, 0xFF, 0xFF, 0xFF], [0x27, 0x40]] ∧
    0x40 = bit RX_DR :=
  ⟨by decide, by decide,
   (read_spec countChip 10 [9, 9, 9, 9, 9] 3 (RF24_new 16 0 (fun _ => false) 0)
     (by decide)).2.1⟩

/-- C15: when round `m + 1` of status polls is the first whose status byte has TX_DS
or MAX_RT set, `write` returns for every fuel above `m` and does not return within
fuel `m`: it runs exactly `n = m + 1` status polls. Its log is FLUSH_TX, W_TX_PAYLOAD
with the payload, chip-enable high, a wait of 10 microseconds, chip-enable low, then
the `n` rounds, each a wait of 200 microseconds followed by the NOP transaction, and
last the write of `0x30` to STATUS. -/
theorem write_terminates (D : Device σ) (ce cs : Nat) (buf : List Nat) (len : Nat)
    (st : State σ) (m : Nat)
    (hclear : ∀ j, j < m →
      pollByte D cs j (writeStart D ce cs buf len st) &&& (bit TX_DS ||| bit MAX_RT) = 0)
    (hset :
      pollByte D cs m (writeStart D ce cs buf len st) &&& (bit TX_DS ||| bit MAX_RT) ≠ 0) :
    (∀ fuel, m < fuel →
      ∃ (b : Bool) (st1 : State σ) (s0 s1 : Nat) (rs : List Nat) (s2 r2 : Nat),
        write D ce cs fuel buf len st = some (b, st1) ∧
        rs.length = (buf.take (len % 256)).length ∧
        st1.log = st.log ++
          (frame cs FLUSH_TX s0 [] [] ++
           frame cs W_TX_PAYLOAD s1 (buf.take (len % 256)) rs ++
           [Event.digitalWrite ce true, Event.delayMicroseconds 10,
            Event.digitalWrite ce false] ++
           pollEvents D cs (m + 1) (writeStart D ce cs buf len st) ++
           frame cs (W_REGISTER ||| NRF_STATUS) s2 [0x30] [r2])) ∧
    (∀ fuel, fuel ≤ m → write D ce cs fuel buf len st = none) ∧
    pollEvents D cs (m + 1) (writeStart D ce cs buf len st) =
      (List.range (m + 1)).flatMap (fun j =>
        [Event.delayMicroseconds 200, Event.digitalWrite cs false,
         Event.transfer NOP (pollByte D cs j (writeStart D ce cs buf len st)),
         Event.digitalWrite cs true]) := by
  have hw : ∀ fuel, write D ce cs fuel buf len st =
      match write_wait D cs fuel (writeStart D ce cs buf len st) with
      | none => none
      | some st6 =>
        some (decide (bitRead
          (write_register D cs NRF_STATUS (bit TX_DS ||| bit MAX_RT) st6).1 TX_DS ≠ 0),
          (write_register D cs NRF_STATUS (bit TX_DS ||| bit MAX_RT) st6).2) :=
    fun _ => rfl
  refine ⟨?_, ?_, rfl⟩
  · intro fuel hf
    obtain ⟨s0, s1, rs, hrs, h0⟩ := writeStart_log D ce cs buf len st
    obtain ⟨r2, h2⟩ := write_register_frame D cs NRF_STATUS (bit TX_DS ||| bit MAX_RT)
      (pollState D cs (m + 1) (writeStart D ce cs buf len st))
    refine ⟨decide (bitRead (write_register D cs NRF_STATUS (bit TX_DS ||| bit MAX_RT)
        (pollState D cs (m + 1) (writeStart D ce cs buf len st))).1 TX_DS ≠ 0),
      (write_register D cs NRF_STATUS (bit TX_DS ||| bit MAX_RT)
        (pollState D cs (m + 1) (writeStart D ce cs buf len st))).2, s0, s1, rs,
      (write_register D cs NRF_STATUS (bit TX_DS ||| bit MAX_RT)
        (pollState D cs (m + 1) (writeStart D ce cs buf len st))).1, r2, ?_, hrs, ?_⟩
    · rw [hw, write_wait_some D cs m _ fuel hclear hset hf]
    · rw [h2, pollState_log, h0]
      simp only [List.append_assoc]
      rfl
  · intro fuel hf
    rw [hw, write_wait_none D cs fuel _ (fun j hj => hclear j (by omega))]

/-- Witness of C15 on a device that answers 1, 2, 3, ...: with a payload of eleven
bytes the polls see 14, 15 and 16, so the third poll is the first with a flag set;
`write` returns false with fuel 3 and does not return with fuel 2. -/
theorem write_terminates_witness :
    (write countChip 9 10 3 [1, 2, 3, 4, 5, 6, 7, 8, 9, 10, 11] 11
      (RF24_new 16 0 (fun _ => false) 0)).map Prod.fst = some false ∧
    write countChip 9 10 2 [1, 2, 3, 4, 5, 6, 7, 8, 9, 10, 11] 11
      (RF24_new 16 0 (fun _ => false) 0) = none ∧
    (List.range 3).map (fun j => pollByte countChip 10 j
      (writeStart countChip 9 10 [1, 2, 3, 4, 5, 6, 7, 8, 9, 10, 11] 11
        (RF24_new 16 0 (fun _ => false) 0))) = [14, 15, 16] :=
  ⟨by decide,
   (write_terminates countChip 9 10 [1, 2, 3, 4, 5, 6, 7, 8, 9, 10, 11] 11
     (RF24_new 16 0 (fun _ => false) 0) 2 (by decide) (by decide)).2.1 2 (Nat.le_refl 2),
   by decide⟩

/-- C18: on a byte-addressed memory, a command issued through the const-buffer `spi`,
whose local array does not overlap the caller's buffer, clocks out after the command
byte exactly the first `len` bytes of the caller's buffer and leaves that buffer, and
every address outside its local array, unchanged; the bytes received end up in the
local array, whereas the in-place `spi` given the caller's buffer overwrites its first
`len` bytes with them. Hence `openWritingPipe` sends the same address bytes to TX_ADDR
and to RX_ADDR_P0 and leaves the address in memory as it was. -/
theorem const_spi_keeps_buffer (D : Device σ) (cs cmd : Nat) (mem : Nat → Nat)
    (buf len tmp : Nat) (st : State σ)
    (hdisj : ∀ i, i < len % 256 → ¬ (tmp ≤ buf + i ∧ buf + i < tmp + len % 256)) :
    (∃ rs : List Nat, rs.length = len % 256 ∧
      (spi_mem D cs cmd mem buf len tmp st).2.2.log = st.log ++
        frame cs (cmd % 256) (spi_mem D cs cmd mem buf len tmp st).1
          (load mem buf (len % 256)) rs ∧
      load (spi_mem D cs cmd mem buf len tmp st).2.1 tmp (len % 256) = rs ∧
      load (spi_buf_mem D cs cmd mem buf len st).2.1 buf (len % 256) = rs) ∧
    (∀ a, ¬ (tmp ≤ a ∧ a < tmp + len % 256) →
      (spi_mem D cs cmd mem buf len tmp st).2.1 a = mem a) ∧
    load (spi_mem D cs cmd mem buf len tmp st).2.1 buf (len % 256) =
      load mem buf (len % 256) ∧
    ((spi_mem D cs cmd mem buf len tmp st).1, (spi_mem D cs cmd mem buf len tmp st).2.2) =
      spi D cs cmd (load mem buf (len % 256)) len st ∧
    (∀ (addr tmp1 tmp2 : Nat) (x : State σ),
      (∀ i, i < x.addr_width % 256 →
        ¬ (tmp1 ≤ addr + i ∧ addr + i < tmp1 + x.addr_width % 256)) →
      (∀ i, i < x.addr_width % 256 →
        ¬ (tmp2 ≤ addr + i ∧ addr + i < tmp2 + x.addr_width % 256)) →
      load (openWritingPipe_mem D cs mem addr tmp1 tmp2 x).1 addr (x.addr_width % 256) =
        load mem addr (x.addr_width % 256) ∧
      (openWritingPipe_mem D cs mem addr tmp1 tmp2 x).2 =
        openWritingPipe D cs (load mem addr (x.addr_width % 256)) x ∧
      ∃ (s : Nat) (rs : List Nat) (s0 : Nat) (rs0 : List Nat) (s1 v s2 r2 s3 r3 : Nat),
        rs.length = x.addr_width % 256 ∧ rs0.length = x.addr_width % 256 ∧
        (openWritingPipe_mem D cs mem addr tmp1 tmp2 x).2.log = x.log ++
          (frame cs (W_REGISTER ||| TX_ADDR) s (load mem addr (x.addr_width % 256)) rs ++
           frame cs (W_REGISTER ||| RX_ADDR_P0) s0 (load mem addr (x.addr_width % 256)) rs0 ++
           frame cs 0x02 s1 [x.uninit] [v] ++
           frame cs 0x22 s2 [(v ||| 1) % 256] [r2] ++
           frame cs 0x31 s3 [x.payload_size % 256] [r3])) := by
  obtain ⟨e1, e2, e3⟩ := spi_mem_eq D cs cmd mem buf len tmp st
  obtain ⟨b1, b2, b3⟩ := spi_buf_mem_eq D cs cmd mem buf len st
  have hlen := spi_buf_load_length D cs cmd mem buf len st
  have ht : (load mem buf (len % 256)).take (len % 256) = load mem buf (len % 256) :=
    List.take_of_length_le (by rw [load_length])
  have hd : (load mem buf (len % 256)).drop (len % 256) = [] :=
    List.drop_eq_nil_of_le (by rw [load_length])
  refine ⟨⟨(spi_buf D cs cmd (load mem buf (len % 256)) len st).2.1, hlen, ?_, ?_, ?_⟩,
    fun a ha => ?_, ?_, ?_, ?_⟩
  · obtain ⟨rs, _, h2, h3⟩ := spi_buf_log D cs cmd (load mem buf (len % 256)) len st
    rw [hd, List.append_nil] at h3
    rw [e1, e2, h2, ht, h3]
  · have h := load_eq_of_getD (spi_mem D cs cmd mem buf len tmp st).2.1 tmp
      (spi_buf D cs cmd (load mem buf (len % 256)) len st).2.1
      (fun i hi => by
        rw [hlen] at hi
        have c : tmp ≤ tmp + i ∧ tmp + i < tmp + len % 256 := by omega
        rw [e3, if_pos c, Nat.add_sub_cancel_left])
    rw [hlen] at h
    exact h
  · have h := load_eq_of_getD (spi_buf_mem D cs cmd mem buf len st).2.1 buf
      (spi_buf D cs cmd (load mem buf (len % 256)) len st).2.1
      (fun i hi => by
        rw [hlen] at hi
        have c : buf ≤ buf + i ∧ buf + i < buf + len % 256 := by omega
        rw [b3, if_pos c, Nat.add_sub_cancel_left])
    rw [hlen] at h
    exact h
  · rw [e3, if_neg ha]
  · apply load_congr
    intro i hi
    rw [e3, if_neg (hdisj i hi)]
  · rw [e1, e2, spi_eq_spi_buf]
  · intro addr tmp1 tmp2 x h1 h2
    obtain ⟨g1, g2⟩ := openWritingPipe_mem_eq D cs mem addr tmp1 tmp2 x h1
    refine ⟨?_, g1, ?_⟩
    · apply load_congr
      intro i hi
      exact g2 (addr + i) (h1 i hi) (h2 i hi)
    · obtain ⟨s, rs, s0, rs0, s1, v, s2, r2, s3, r3, k1, k2, k3⟩ :=
        openWritingPipe_log D cs (load mem addr (x.addr_width % 256)) x
      have hta : (load mem addr (x.addr_width % 256)).take (x.addr_width % 256) =
          load mem addr (x.addr_width % 256) :=
        List.take_of_length_le (by rw [load_length])
      rw [hta] at k1 k2 k3
      rw [load_length] at k1 k2
      exact ⟨s, rs, s0, rs0, s1, v, s2, r2, s3, r3, k1, k2, by rw [g1]; exact k3⟩

/-- Witness of C18 on a device that answers 1, 2, 3, ...: the caller's buffer `9 9 9`
at address 0 still reads `9 9 9` after the const-buffer `spi` with its local array at
address 100, which holds `2 3 4`; the in-place `spi` on the same buffer leaves `2 3 4`
in it. -/
theorem const_spi_keeps_buffer_witness :
    load (spi_mem countChip 10 0x30 nines 0 3 100
      (RF24_new 16 0 (fun _ => false) 0)).2.1 0 3 = [9, 9, 9] ∧
    load (spi_mem countChip 10 0x30 nines 0 3 100
      (RF24_new 16 0 (fun _ => false) 0)).2.1 100 3 = [2, 3, 4] ∧
    load (spi_buf_mem countChip 10 0x30 nines 0 3
      (RF24_new 16 0 (fun _ => false) 0)).2.1 0 3 = [2, 3, 4] ∧
    transactions 10 (spi_mem countChip 10 0x30 nines 0 3 100
      (RF24_new 16 0 (fun _ => false) 0)).2.2.log = [[0x30, 9, 9, 9]] :=
  ⟨(const_spi_keeps_buffer countChip 10 0x30 nines 0 3 100
      (RF24_new 16 0 (fun _ => false) 0) (fun i hi => by omega)).2.2.1,
   by decide, by decide, by decide⟩

end TinyRF24
